import Mathlib

/-!
# envloader: a verification development

A shallow embedding of `envloader/loadenv.go` (package `envloader`) and proofs about it.

Conventions of the embedding.

* A Go `string` is a `Str`, a list of characters.  Every delimiter the loader looks at
  (`[`, `]`, the two braces, `,`) is ASCII, so the byte view and the rune view of a Go string
  agree on where those delimiters are.
* A Go `map[string]string` is an association list; `m[k] = v` conses a pair and a lookup
  returns the first pair whose key is `k`, so a later write wins, as in Go.
* The process environment is an association list read by `Getenv`, which gives the empty
  string for a variable that is not set, as `os.Getenv` does.
* An `error` is a value of `Err`; `Err.Error` renders the message the Go code formats.
* A struct reached through `reflect` is a list of `Field`s: the `reflect.StructField`
  data the loader reads, and the current value of the field.
-/

namespace Envloader

/-- A Go string. -/
abbrev Str := List Char

/-- A Go `map[string]string`. -/
abbrev StrMap := List (Str × Str)

/-! ## The regular expression `\{([^}]+)\}` -/

/-- The text before the first closing brace of `s`, and the text after that brace;
`none` when `s` has no closing brace. -/
def untilClose : Str → Option (Str × Str)
  | [] => none
  | c :: cs =>
    if c = '}' then some ([], cs)
    else
      match untilClose cs with
      | some (name, rest) => some (c :: name, rest)
      | none => none

/-- A match of `\{([^}]+)\}` anchored at the start of `s`: the capture group and the text
after the match.  The greedy class `[^}]+` runs to the first closing brace, must be followed by
it, and must hold at least one character. -/
def matchAt : Str → Option (Str × Str)
  | [] => none
  | c :: cs =>
    if c = '{' then
      match untilClose cs with
      | some (name, rest) => if name.isEmpty then none else some (name, rest)
      | none => none
    else none

/-- A piece of a scanned string: a character outside every match, or one match of the
expression, kept as its capture group. -/
inductive Seg where
  | lit (c : Char)
  | hole (name : Str)
  deriving DecidableEq, Repr

/-- The scan all of Go's `regexp` "All" functions share: the leftmost match is taken, the
scan resumes right after it, and a position with no match is stepped over.  `fuel` bounds the
number of steps. -/
def segmentsFuel : Nat → Str → List Seg
  | 0, _ => []
  | _ + 1, [] => []
  | fuel + 1, c :: cs =>
    match matchAt (c :: cs) with
    | some (name, rest) => Seg.hole name :: segmentsFuel fuel rest
    | none => Seg.lit c :: segmentsFuel fuel cs

/-- The successive non-overlapping matches of the expression in `s`, with the characters
between them.  Every step consumes a character, so `s.length` steps are enough. -/
def segments (s : Str) : List Seg :=
  segmentsFuel s.length s

/-- The whole text of a match whose capture group is `name`. -/
def matchText (name : Str) : Str :=
  '{' :: (name ++ ['}'])

/-- Go's `(*Regexp).ReplaceAllStringFunc` for the expression: every match is replaced by
`repl` of the matched text. -/
def ReplaceAllStringFunc (src : Str) (repl : Str → Str) : Str :=
  ((segments src).map fun
    | Seg.lit c => [c]
    | Seg.hole name => repl (matchText name)).flatten

/-- Go's `(*Regexp).MatchString` for the expression. -/
def MatchString (s : Str) : Bool :=
  (segments s).any fun
    | Seg.lit _ => false
    | Seg.hole _ => true

/-- Go's `(*Regexp).FindAllStringSubmatch(s, -1)` for the expression: for every match, the
matched text (index 0) and the capture group (index 1). -/
def FindAllStringSubmatch (s : Str) : List (Str × Str) :=
  (segments s).filterMap fun
    | Seg.lit _ => none
    | Seg.hole name => some (matchText name, name)

/-! ## Errors -/

/-- The errors of the package, one constructor for each `fmt.Errorf` of the source. -/
inductive Err where
  /-- `erro ao carregar arquivo %s: %w` -/
  | loadFile (file : Str) (cause : Str)
  /-- `target deve ser um ponteiro para struct` -/
  | notStructPtr
  /-- `variável de ambiente obrigatória não encontrada: %s` -/
  | missingRequired (envName : Str)
  /-- `erro ao processar interpolação para %s: %w` -/
  | interpolation (envName : Str) (cause : Err)
  /-- `variáveis não encontradas para interpolação: %s`, the names joined by `", "` -/
  | unresolved (missingVars : List Str)
  /-- `erro ao definir valor para %s: %w` -/
  | setField (fieldName : Str) (cause : Err)
  /-- `tipo int não implementado ainda` -/
  | intNotImplemented
  /-- `tipo bool não implementado ainda` -/
  | boolNotImplemented
  /-- `tipo não suportado: %s` -/
  | unsupportedKind (kind : Str)
  /-- `erros de validação:` followed by one line for each message -/
  | validation (errorMessages : List Str)
  deriving DecidableEq, Repr

deriving instance DecidableEq for Except

/-- Go's `strings.Join`. -/
def Join : List Str → Str → Str
  | [], _ => []
  | [a], _ => a
  | a :: b :: rest, sep => a ++ sep ++ Join (b :: rest) sep

/-- The message of an error, as the Go code formats it. -/
def Err.Error : Err → Str
  | .loadFile file cause =>
    "erro ao carregar arquivo ".toList ++ file ++ ": ".toList ++ cause
  | .notStructPtr => "target deve ser um ponteiro para struct".toList
  | .missingRequired envName =>
    "variável de ambiente obrigatória não encontrada: ".toList ++ envName
  | .interpolation envName cause =>
    "erro ao processar interpolação para ".toList ++ envName ++ ": ".toList ++ cause.Error
  | .unresolved missingVars =>
    "variáveis não encontradas para interpolação: ".toList ++ Join missingVars ", ".toList
  | .setField fieldName cause =>
    "erro ao definir valor para ".toList ++ fieldName ++ ": ".toList ++ cause.Error
  | .intNotImplemented => "tipo int não implementado ainda".toList
  | .boolNotImplemented => "tipo bool não implementado ainda".toList
  | .unsupportedKind kind => "tipo não suportado: ".toList ++ kind
  | .validation errorMessages =>
    "erros de validação:\n- ".toList ++ Join errorMessages "\n- ".toList

/-! ## interpolateValue -/

/-- Go's `strings.HasPrefix`. -/
def hasPrefixStr (s pre : Str) : Bool :=
  pre.isPrefixOf s

/-- Go's `strings.HasSuffix`. -/
def hasSuffixStr (s suf : Str) : Bool :=
  suf.isSuffixOf s

/-- The Go slice expression `s[lo:hi]`, for `lo ≤ hi ≤ len(s)`. -/
def sliceStr (s : Str) (lo hi : Nat) : Str :=
  (s.take hi).drop lo

/-- The function literal `interpolateValue` passes to `ReplaceAllStringFunc`: the value of
the variable named between the braces of `m`, or `m` itself when there is none. -/
def replaceMatch (envValues : StrMap) (m : Str) : Str :=
  let varName := sliceStr m 1 (m.length - 1)
  match envValues.lookup varName with
  | some val => val
  | none => m

/-- The function `interpolateValue` of the source. -/
def interpolateValue (value : Str) (envValues : StrMap) : Except Err Str :=
  if hasPrefixStr value ['['] && hasSuffixStr value [']'] then
    let template := sliceStr value 1 (value.length - 1)
    let result := ReplaceAllStringFunc template (replaceMatch envValues)
    if MatchString result then
      let unresolvedVars := FindAllStringSubmatch result
      let missingVars := unresolvedVars.map fun m => m.2
      Except.error (Err.unresolved missingVars)
    else
      Except.ok result
  else
    Except.ok value

/-! ## The struct seen through reflection -/

/-- The `reflect.Kind`s that `setFieldValue` tells apart; `Other` carries the name that
`Kind.String` prints. -/
inductive Kind where
  | String
  | Int
  | Int8
  | Int16
  | Int32
  | Int64
  | Bool
  | Other (name : Str)
  deriving DecidableEq, Repr

/-- The value a field holds. -/
inductive Value where
  | String (s : Str)
  | Int (n : Int)
  | Bool (b : Bool)
  | Opaque
  deriving DecidableEq, Repr

/-- The zero value of a kind. -/
def zeroValue : Kind → Value
  | .String => .String []
  | .Int | .Int8 | .Int16 | .Int32 | .Int64 => .Int 0
  | .Bool => .Bool false
  | .Other _ => .Opaque

/-- What the loader reads of a `reflect.StructField`: the field name, `Tag.Get("env")`,
`Tag.Get("validate")` (both empty when the tag has no such key), the kind of the field type,
and whether the field is exported. -/
structure StructField where
  Name : Str
  envTag : Str
  validateTag : Str
  Kind : Kind
  Exported : Bool
  deriving DecidableEq, Repr

/-- A field of the target struct: its description and its current value. -/
structure Field where
  type : StructField
  value : Value
  deriving DecidableEq, Repr

/-- The method `reflect.Value.CanSet` on a field of a struct reached through a pointer: the
field is settable exactly when it is exported. -/
def Field.CanSet (f : Field) : Bool :=
  f.type.Exported

/-- The argument `target interface{}`: a pointer to a struct, or anything else. -/
inductive Target where
  | structPtr (fields : List Field)
  | other
  deriving DecidableEq, Repr

/-- The struct `LoadOptions` of the source. -/
structure LoadOptions where
  EnvFile : Str
  RequiredByDefault : Bool
  deriving DecidableEq, Repr

/-- Go's `os.Getenv`: the value of the variable, empty when it is not set. -/
def Getenv (environ : StrMap) (key : Str) : Str :=
  (environ.lookup key).getD []

/-- Go's `os.Setenv`. -/
def Setenv (environ : StrMap) (key value : Str) : StrMap :=
  (key, value) :: environ

/-- Go's `strings.Contains`. -/
def containsStr : Str → Str → Bool
  | [], substr => substr.isEmpty
  | c :: cs, substr => substr.isPrefixOf (c :: cs) || containsStr cs substr

/-- The function `getEnvName` of the source. -/
def getEnvName (field : StructField) : Str :=
  let envTag := field.envTag
  if envTag ≠ [] then envTag else field.Name

/-- The function `isFieldRequired` of the source. -/
def isFieldRequired (field : StructField) (defaultRequired : Bool) : Bool :=
  let validateTag := field.validateTag
  if validateTag = [] then defaultRequired
  else if containsStr validateTag "required".toList then true
  else if containsStr validateTag "omitempty".toList then false
  else defaultRequired

/-- The name `reflect.Kind.String` prints. -/
def Kind.name : Kind → Str
  | .String => "string".toList
  | .Int => "int".toList
  | .Int8 => "int8".toList
  | .Int16 => "int16".toList
  | .Int32 => "int32".toList
  | .Int64 => "int64".toList
  | .Bool => "bool".toList
  | .Other name => name

/-- The function `setFieldValue` of the source: the new value of the field, or the error. -/
def setFieldValue (field : Field) (value : Str) : Except Err Value :=
  match field.type.Kind with
  | .String => Except.ok (Value.String value)
  | .Int | .Int8 | .Int16 | .Int32 | .Int64 => Except.error Err.intNotImplemented
  | .Bool => Except.error Err.boolNotImplemented
  | k => Except.error (Err.unsupportedKind k.name)

/-! ## processStruct -/

/-- The body of the first loop of `processStruct` for one field: the map after the
iteration.  A settable field with a non-empty variable is recorded under its environment name
and then under its field name. -/
def collectField (environ : StrMap) (envValues : StrMap) (f : Field) : StrMap :=
  if !f.CanSet then envValues
  else
    let envName := getEnvName f.type
    let envValue := Getenv environ envName
    if envValue ≠ [] then (f.type.Name, envValue) :: (envName, envValue) :: envValues
    else envValues

/-- The first loop of `processStruct`, from the fields still to visit and the map built so
far. -/
def collectEnvValues (environ : StrMap) : List Field → StrMap → StrMap
  | [], envValues => envValues
  | f :: rest, envValues => collectEnvValues environ rest (collectField environ envValues f)

/-- The body of the second loop of `processStruct` for one field: the field as the
iteration leaves it, or the error the iteration returns. -/
def assignField (environ : StrMap) (options : LoadOptions) (envValues : StrMap) (f : Field) :
    Except Err Field :=
  if !f.CanSet then Except.ok f
  else
    let envName := getEnvName f.type
    let envValue := Getenv environ envName
    let isRequired := isFieldRequired f.type options.RequiredByDefault
    if envValue = [] && isRequired then
      Except.error (Err.missingRequired envName)
    else if envValue ≠ [] then
      match interpolateValue envValue envValues with
      | Except.error err => Except.error (Err.interpolation envName err)
      | Except.ok processedValue =>
        match setFieldValue f processedValue with
        | Except.error err => Except.error (Err.setField f.type.Name err)
        | Except.ok v => Except.ok { f with value := v }
    else Except.ok f

/-- The second loop of `processStruct`, from the fields still to visit: the fields as the
loop leaves them, and the error it returned, if any.  A `return` leaves the field it stopped at
and the fields not yet visited as they were. -/
def assignFields (environ : StrMap) (options : LoadOptions) (envValues : StrMap) :
    List Field → List Field × Option Err
  | [] => ([], none)
  | f :: rest =>
    match assignField environ options envValues f with
    | Except.error err => (f :: rest, some err)
    | Except.ok g =>
      let r := assignFields environ options envValues rest
      (g :: r.1, r.2)

/-- The function `processStruct` of the source: the target as the call leaves it, and the
error returned. -/
def processStruct (target : Target) (options : LoadOptions) (environ : StrMap) :
    Target × Option Err :=
  match target with
  | Target.other => (Target.other, some Err.notStructPtr)
  | Target.structPtr fields =>
    let envValues := collectEnvValues environ fields []
    let r := assignFields environ options envValues fields
    (Target.structPtr r.1, r.2)

/-! ## Load -/

/-- One entry of `validator.ValidationErrors`: what `Field()` and `Tag()` return. -/
structure FieldError where
  Field : Str
  Tag : Str
  deriving DecidableEq, Repr

/-- The function `formatValidationError` of the source, on the entries of the
`validator.ValidationErrors` it is given. -/
def formatValidationError (errs : List FieldError) : Err :=
  let errorMessages := errs.map fun err =>
    if err.Tag = "required".toList then
      "campo '".toList ++ err.Field ++ "' é obrigatório".toList
    else if err.Tag = "url".toList then
      "campo '".toList ++ err.Field ++ "' deve ser uma URL válida".toList
    else if err.Tag = "email".toList then
      "campo '".toList ++ err.Field ++ "' deve ser um email válido".toList
    else
      "campo '".toList ++ err.Field ++ "' falhou na validação '".toList ++ err.Tag ++ "'".toList
  Err.validation errorMessages

/-- What `Load` reads and writes outside its arguments: the process environment, whether
`os.Stat` finds a path, and what `godotenv` reads from a file (its key/value pairs, or the
message of its error). -/
structure World where
  environ : StrMap
  stat : Str → Bool
  dotenv : Str → Except Str StrMap

/-- Modelled from the spec: the library call `godotenv.Load(filename)`, whose source is not
part of the repository.  The file is read as `KEY=VALUE` pairs (`dotenv` of the world, which
gives the message of the error for a malformed file), and each pair is put into the process
environment without overwriting a variable already present in it: a pair whose key is a
variable of the environment as it was before the call is skipped, every other pair is set. -/
def godotenvLoad (w : World) (filename : Str) : Except Str StrMap :=
  match w.dotenv filename with
  | Except.error msg => Except.error msg
  | Except.ok envMap =>
    Except.ok (envMap.foldl
      (fun env kv => if (w.environ.lookup kv.1).isSome then env else Setenv env kv.1 kv.2)
      w.environ)

/-- What a call of `Load` leaves: the environment, the target, and the error returned. -/
structure Outcome where
  environ : StrMap
  target : Target
  err : Option Err
  deriving DecidableEq, Repr

/-- The options `Load` uses: the first of `opts`, or the defaults when `opts` is empty. -/
def resolveOptions (opts : List LoadOptions) : LoadOptions :=
  match opts with
  | o :: _ => o
  | [] => { EnvFile := ".env".toList, RequiredByDefault := true }

/-- The first step of `Load`: the environment after the file named by the options has been
merged into it, or the message of `godotenv`'s error.  An empty path and a path `os.Stat`
does not find leave the environment as it is. -/
def loadEnvFile (options : LoadOptions) (w : World) : Except Str StrMap :=
  if options.EnvFile ≠ [] then
    if w.stat options.EnvFile then godotenvLoad w options.EnvFile
    else Except.ok w.environ
  else Except.ok w.environ

/-- The function `Load` of the source.  `validateStruct` is the library call
`validate.Struct`: the violations it finds in the populated struct, none when it returns
`nil`. -/
def Load (validateStruct : List Field → List FieldError) (target : Target)
    (opts : List LoadOptions) (w : World) : Outcome :=
  let options := resolveOptions opts
  match loadEnvFile options w with
  | Except.error msg =>
    { environ := w.environ, target := target, err := some (Err.loadFile options.EnvFile msg) }
  | Except.ok environ =>
    match processStruct target options environ with
    | (t, some err) => { environ := environ, target := t, err := some err }
    | (t, none) =>
      match t with
      | Target.other => { environ := environ, target := t, err := none }
      | Target.structPtr fields =>
        match validateStruct fields with
        | [] => { environ := environ, target := t, err := none }
        | e :: es =>
          { environ := environ, target := t, err := some (formatValidationError (e :: es)) }

/-- The struct `Env` of `envloader/env.go`, freshly zeroed. -/
def Env : Target :=
  Target.structPtr [
    { type := { Name := "DATABASE_URL".toList, envTag := "DB_URL".toList,
                validateTag := "omitempty,url".toList, Kind := Kind.String, Exported := true },
      value := Value.String [] },
    { type := { Name := "DB_TOKEN".toList, envTag := [], validateTag := [],
                Kind := Kind.String, Exported := true },
      value := Value.String [] },
    { type := { Name := "DB_NAME".toList, envTag := [], validateTag := [],
                Kind := Kind.String, Exported := true },
      value := Value.String [] },
    { type := { Name := "DB_TURSO_USER".toList, envTag := [], validateTag := [],
                Kind := Kind.String, Exported := true },
      value := Value.String [] } ]

/-! ## Reading the specification -/

/-- The identifiers of the placeholders of a template: the capture groups of the successive
matches of the expression, in order. -/
def placeholders (template : Str) : List Str :=
  (segments template).filterMap fun
    | Seg.lit _ => none
    | Seg.hole name => some name

/-- A scanned template put back together, every match written out in full. -/
def render : List Seg → Str
  | [] => []
  | Seg.lit c :: rest => c :: render rest
  | Seg.hole name :: rest => matchText name ++ render rest

/-- The text the specification describes: every placeholder of the scanned template
replaced by the value the map has for its identifier, every other character kept. -/
def substitute (envValues : StrMap) : List Seg → Str
  | [] => []
  | Seg.lit c :: rest => c :: substitute envValues rest
  | Seg.hole name :: rest => (envValues.lookup name).getD [] ++ substitute envValues rest

/-- The text the replacement builds from scanned pieces. -/
def replaceSegs (envValues : StrMap) (segs : List Seg) : Str :=
  (segs.map fun
    | Seg.lit c => [c]
    | Seg.hole name => replaceMatch envValues (matchText name)).flatten

/-- The capture groups among scanned pieces, in order. -/
def holeNames (segs : List Seg) : List Str :=
  segs.filterMap fun
    | Seg.lit _ => none
    | Seg.hole name => some name

/-- The identifiers of the placeholders of a template for which the map has no key, in
order. -/
def unresolvedIds (envValues : StrMap) (template : Str) : List Str :=
  (placeholders template).filter fun id => (envValues.lookup id).isNone

/-- The scanned pieces of a template after substitution, when nothing a value brings in
opens a match: a resolved placeholder becomes the characters of its value, an unresolved one
stays a match. -/
def expandSegs (envValues : StrMap) : List Seg → List Seg
  | [] => []
  | Seg.lit c :: rest => Seg.lit c :: expandSegs envValues rest
  | Seg.hole name :: rest =>
    (match envValues.lookup name with
      | some val => val.map Seg.lit
      | none => [Seg.hole name]) ++ expandSegs envValues rest

/-- The comma-separated rules of a `validate` tag, as the validator reads them. -/
def tagTokens : Str → List Str
  | [] => [[]]
  | c :: cs =>
    if c = ',' then [] :: tagTokens cs
    else
      match tagTokens cs with
      | [] => [[c]]
      | t :: ts => (c :: t) :: ts

/-- An exported string field with the given name and tags, holding the zero value. -/
def stringField (name envTag validateTag : Str) : Field :=
  { type := { Name := name, envTag := envTag, validateTag := validateTag,
              Kind := Kind.String, Exported := true },
    value := Value.String [] }

/-- A process with the given environment and no file on disk. -/
def noFiles (environ : StrMap) : World :=
  { environ := environ, stat := fun _ => false, dotenv := fun _ => Except.ok [] }

/-- A validator that finds no violation. -/
def acceptAll : List Field → List FieldError :=
  fun _ => []

/-- The field writes the key in the first loop: it is settable, its variable is not empty,
and the key is its environment name or its field name. -/
def writesKey (environ : StrMap) (f : Field) (k : Str) : Prop :=
  f.CanSet = true ∧ Getenv environ (getEnvName f.type) ≠ [] ∧
    (k = getEnvName f.type ∨ k = f.type.Name)

instance (environ : StrMap) (f : Field) (k : Str) : Decidable (writesKey environ f k) := by
  unfold writesKey
  infer_instance

/-- The keys of two fields do not clash: the fields have different names, and neither
field's name is the other's environment key. -/
def keysApart (f g : Field) : Prop :=
  f.type.Name ≠ g.type.Name ∧ f.type.Name ≠ getEnvName g.type ∧
    g.type.Name ≠ getEnvName f.type

instance (f g : Field) : Decidable (keysApart f g) := by
  unfold keysApart
  infer_instance

/-- The field as an iteration of the second loop leaves it: assigned, or as it was when the
iteration passes over it or returns an error. -/
def assignedField (environ : StrMap) (options : LoadOptions) (envValues : StrMap)
    (f : Field) : Field :=
  match assignField environ options envValues f with
  | Except.ok g => g
  | Except.error _ => f

/-- The Go slice expression `s[lo:hi]` with its bounds check: `none` stands for the run-time
panic Go raises unless `0 ≤ lo ≤ hi ≤ len(s)`. -/
def sliceChecked (s : Str) (lo hi : Int) : Option Str :=
  if 0 ≤ lo ∧ lo ≤ hi ∧ hi ≤ (s.length : Int) then some (sliceStr s lo.toNat hi.toNat)
  else none

/-- The function literal of `interpolateValue` with the bounds check of its slice written
out. -/
def replaceMatchChecked (envValues : StrMap) (m : Str) : Option Str :=
  match sliceChecked m 1 ((m.length : Int) - 1) with
  | none => none
  | some varName =>
    match envValues.lookup varName with
    | some val => some val
    | none => some m

/-- The replacement of the scanned pieces by a function that may panic: the text built, or
`none` when a call of the function panics. -/
def replaceSegsChecked (repl : Str → Option Str) : List Seg → Option Str
  | [] => some []
  | Seg.lit c :: rest =>
    match replaceSegsChecked repl rest with
    | none => none
    | some tail => some (c :: tail)
  | Seg.hole name :: rest =>
    match repl (matchText name) with
    | none => none
    | some r =>
      match replaceSegsChecked repl rest with
      | none => none
      | some tail => some (r ++ tail)

/-- The function `interpolateValue` of the source with the bounds checks of its two slice
expressions written out: `none` when a slice panics, else what the function returns. -/
def interpolateValueChecked (value : Str) (envValues : StrMap) : Option (Except Err Str) :=
  if hasPrefixStr value ['['] && hasSuffixStr value [']'] then
    match sliceChecked value 1 ((value.length : Int) - 1) with
    | none => none
    | some template =>
      match replaceSegsChecked (replaceMatchChecked envValues) (segments template) with
      | none => none
      | some result =>
        if MatchString result then
          let unresolvedVars := FindAllStringSubmatch result
          let missingVars := unresolvedVars.map fun m => m.2
          some (Except.error (Err.unresolved missingVars))
        else
          some (Except.ok result)
  else
    some (Except.ok value)

/-- Three untagged string fields `A`, `B`, `C`, holding their zero values. -/
def fieldsABC : List Field :=
  [stringField "A".toList [] [], stringField "B".toList [] [], stringField "C".toList [] []]

/-- An environment that sets `A` and `C` and leaves `B` unset. -/
def environAC : StrMap :=
  [("A".toList, "a".toList), ("C".toList, "c".toList)]

/-- The default options of `Load`. -/
def defaultOptions : LoadOptions :=
  { EnvFile := ".env".toList, RequiredByDefault := true }

/-- One step of the merge of `godotenvLoad`: the pair is set in `env` unless its key is a
variable of `base`, the environment as it was before the call. -/
def mergeStep (base : StrMap) (env : StrMap) (kv : Str × Str) : StrMap :=
  if (base.lookup kv.1).isSome then env else Setenv env kv.1 kv.2

/-- A world with the environment `A=1`, in which the file `.env` exists and holds `A=2` and
`B=3`. -/
def worldWithFile : World :=
  { environ := [("A".toList, "1".toList)],
    stat := fun path => path = ".env".toList,
    dotenv := fun _ => Except.ok [("A".toList, "2".toList), ("B".toList, "3".toList)] }

/-- An exported untagged field of kind int with the given name, holding zero. -/
def intField (name : Str) : Field :=
  { type := { Name := name, envTag := [], validateTag := [], Kind := Kind.Int,
              Exported := true },
    value := Value.Int 0 }

/-- A value of the form `[` + template + `]`. -/
def bracket (template : Str) : Str :=
  '[' :: (template ++ [']'])

/-! ## The scan -/

theorem untilClose_eq_some {s name rest : Str} (h : untilClose s = some (name, rest)) :
    s = name ++ '}' :: rest ∧ '}' ∉ name := by
  induction s generalizing name with
  | nil => simp [untilClose] at h
  | cons c cs ih =>
    unfold untilClose at h
    split at h
    · rename_i hc
      simp only [Option.some.injEq, Prod.mk.injEq] at h
      obtain ⟨h1, h2⟩ := h
      subst h1 h2 hc
      simp
    · rename_i hc
      split at h
      · rename_i n r hn
        simp only [Option.some.injEq, Prod.mk.injEq] at h
        obtain ⟨h1, h2⟩ := h
        subst h1 h2
        obtain ⟨e, hm⟩ := ih hn
        refine ⟨by rw [e]; simp, ?_⟩
        simp only [List.mem_cons, not_or]
        exact ⟨fun hcc => hc hcc.symm, hm⟩
      · simp at h

theorem untilClose_append {name : Str} (rest : Str) (h : '}' ∉ name) :
    untilClose (name ++ '}' :: rest) = some (name, rest) := by
  induction name with
  | nil => simp [untilClose]
  | cons c cs ih =>
    simp only [List.mem_cons, not_or] at h
    have hc : c ≠ '}' := fun e => h.1 e.symm
    simp [untilClose, hc, ih h.2]

theorem untilClose_eq_none {s : Str} : untilClose s = none ↔ '}' ∉ s := by
  induction s with
  | nil => simp [untilClose]
  | cons c cs ih =>
    unfold untilClose
    by_cases hc : c = '}'
    · simp [hc]
    · simp only [hc, if_false, List.mem_cons, not_or]
      cases hu : untilClose cs with
      | none => simpa [hu, Ne.symm hc] using ih.mp hu
      | some p =>
        obtain ⟨n, r⟩ := p
        have := (untilClose_eq_some hu).1
        simp [this]

theorem matchAt_eq_some {s name rest : Str} (h : matchAt s = some (name, rest)) :
    s = matchText name ++ rest ∧ name ≠ [] ∧ '}' ∉ name := by
  cases s with
  | nil => simp [matchAt] at h
  | cons c cs =>
    by_cases hc : c = '{'
    · subst hc
      cases hu : untilClose cs with
      | none => simp [matchAt, hu] at h
      | some p =>
        obtain ⟨n, r⟩ := p
        obtain ⟨e, hm⟩ := untilClose_eq_some hu
        cases n with
        | nil => simp [matchAt, hu] at h
        | cons a as =>
          simp only [matchAt, hu, if_true, List.isEmpty_cons, Bool.false_eq_true, if_false,
            Option.some.injEq, Prod.mk.injEq] at h
          obtain ⟨h1, h2⟩ := h
          subst h1 h2
          exact ⟨by rw [e]; simp [matchText], by simp, hm⟩
    · simp [matchAt, hc] at h

theorem matchAt_matchText {name : Str} (rest : Str) (hne : name ≠ []) (h : '}' ∉ name) :
    matchAt (matchText name ++ rest) = some (name, rest) := by
  have e : matchText name ++ rest = '{' :: (name ++ '}' :: rest) := by simp [matchText]
  rw [e]
  unfold matchAt
  simp only [if_true]
  rw [untilClose_append rest h]
  cases name with
  | nil => exact absurd rfl hne
  | cons a as => simp

theorem matchAt_of_ne_open {c : Char} (cs : Str) (hc : c ≠ '{') : matchAt (c :: cs) = none := by
  simp [matchAt, hc]

theorem matchAt_rest_length {s name rest : Str} (h : matchAt s = some (name, rest)) :
    rest.length < s.length := by
  have := (matchAt_eq_some h).1
  rw [this]
  simp [matchText]
  omega

/-- Fuel beyond the length of the text changes nothing. -/
theorem segmentsFuel_eq_segments (n : Nat) (s : Str) (h : s.length ≤ n) :
    segmentsFuel n s = segments s := by
  unfold segments
  induction n using Nat.strong_induction_on generalizing s with
  | _ n ih =>
    cases s with
    | nil => cases n <;> rfl
    | cons c cs =>
      cases n with
      | zero => simp at h
      | succ m =>
        simp only [List.length_cons, Nat.add_le_add_iff_right] at h
        simp only [List.length_cons, segmentsFuel]
        cases hm : matchAt (c :: cs) with
        | none =>
          simp only
          rw [ih m (Nat.lt_succ_self m) cs h]
        | some p =>
          obtain ⟨name, rest⟩ := p
          simp only
          have hr := matchAt_rest_length hm
          simp only [List.length_cons] at hr
          rw [ih m (Nat.lt_succ_self m) rest (by omega)]
          by_cases hk : rest.length = cs.length
          · rw [hk]
          · rw [ih cs.length (by omega) rest (by omega)]

theorem segments_nil : segments [] = [] := rfl

theorem segments_cons_of_match {c : Char} {cs name rest : Str}
    (h : matchAt (c :: cs) = some (name, rest)) :
    segments (c :: cs) = Seg.hole name :: segments rest := by
  have hr := matchAt_rest_length h
  simp only [List.length_cons] at hr
  show segmentsFuel (cs.length + 1) (c :: cs) = _
  simp only [segmentsFuel, h]
  rw [segmentsFuel_eq_segments cs.length rest (by omega)]

theorem segments_cons_of_no_match {c : Char} {cs : Str} (h : matchAt (c :: cs) = none) :
    segments (c :: cs) = Seg.lit c :: segments cs := by
  show segmentsFuel (cs.length + 1) (c :: cs) = _
  simp only [segmentsFuel, h]
  rfl

/-- Induction along the scan: a property that holds of the empty text, passes from the text
after a match to the text that starts with it, and passes over a character with no match at it,
holds of every text. -/
theorem scan_induction {P : Str → Prop} (hnil : P [])
    (hhole : ∀ c cs name rest, matchAt (c :: cs) = some (name, rest) → P rest → P (c :: cs))
    (hlit : ∀ c cs, matchAt (c :: cs) = none → P cs → P (c :: cs)) (s : Str) : P s := by
  suffices h : ∀ n, ∀ t : Str, t.length = n → P t from h s.length s rfl
  intro n
  induction n using Nat.strong_induction_on with
  | _ n ih =>
    intro t hn
    cases t with
    | nil => exact hnil
    | cons c cs =>
      cases hm : matchAt (c :: cs) with
      | none =>
        exact hlit c cs hm (ih cs.length (by simp [← hn]) cs rfl)
      | some p =>
        obtain ⟨name, rest⟩ := p
        have hr := matchAt_rest_length hm
        exact hhole c cs name rest hm (ih rest.length (by omega) rest rfl)

/-- The pieces of a scan, written out, are the scanned text. -/
theorem render_segments (s : Str) : render (segments s) = s := by
  induction s using scan_induction with
  | hnil => rfl
  | hhole c cs name rest hm ih =>
    rw [segments_cons_of_match hm, render, ih]
    exact (matchAt_eq_some hm).1.symm
  | hlit c cs hm ih => rw [segments_cons_of_no_match hm, render, ih]

/-- The capture group of a match is not empty and holds no closing brace. -/
theorem hole_of_mem_segments {s name : Str} (h : Seg.hole name ∈ segments s) :
    name ≠ [] ∧ '}' ∉ name := by
  induction s using scan_induction with
  | hnil => simp [segments_nil] at h
  | hhole c cs n rest hm ih =>
    rw [segments_cons_of_match hm] at h
    rcases List.mem_cons.mp h with h | h
    · cases h
      exact (matchAt_eq_some hm).2
    · exact ih h
  | hlit c cs hm ih =>
    rw [segments_cons_of_no_match hm] at h
    rcases List.mem_cons.mp h with h | h
    · cases h
    · exact ih h

theorem mem_placeholders {template name : Str} :
    name ∈ placeholders template ↔ Seg.hole name ∈ segments template := by
  unfold placeholders
  rw [List.mem_filterMap]
  constructor
  · rintro ⟨a, ha, hs⟩
    cases a with
    | lit c => simp at hs
    | hole n => simp only [Option.some.injEq] at hs; subst hs; exact ha
  · intro h
    exact ⟨Seg.hole name, h, rfl⟩

theorem matchString_eq_true {s : Str} :
    MatchString s = true ↔ ∃ name, Seg.hole name ∈ segments s := by
  unfold MatchString
  rw [List.any_eq_true]
  constructor
  · rintro ⟨a, ha, hs⟩
    cases a with
    | lit c => simp at hs
    | hole n => exact ⟨n, ha⟩
  · rintro ⟨n, hn⟩
    exact ⟨Seg.hole n, hn, rfl⟩

/-- A text that holds a well-formed placeholder anywhere has a match. -/
theorem matchString_of_infix (pre post : Str) {name : Str} (hne : name ≠ [])
    (h : '}' ∉ name) : MatchString (pre ++ matchText name ++ post) = true := by
  induction pre with
  | nil =>
    rw [matchString_eq_true]
    have hm := matchAt_matchText post hne h
    have e : matchText name ++ post = '{' :: (name ++ '}' :: post) := by simp [matchText]
    rw [List.nil_append]
    rw [e] at hm ⊢
    exact ⟨name, by rw [segments_cons_of_match hm]; exact List.mem_cons_self _ _⟩
  | cons c cs ih =>
    rw [matchString_eq_true] at ih ⊢
    obtain ⟨n, hn⟩ := ih
    simp only [List.cons_append]
    cases hm : matchAt (c :: (cs ++ matchText name ++ post)) with
    | none =>
      refine ⟨n, ?_⟩
      rw [segments_cons_of_no_match hm]
      exact List.mem_cons_of_mem _ hn
    | some p =>
      obtain ⟨n2, r2⟩ := p
      exact ⟨n2, by rw [segments_cons_of_match hm]; exact List.mem_cons_self _ _⟩

/-! ## interpolateValue: first facts -/

theorem lookup_isSome_iff_mem_keys (m : StrMap) (k : Str) :
    (m.lookup k).isSome = true ↔ k ∈ m.map Prod.fst := by
  induction m with
  | nil => simp
  | cons kv rest ih =>
    obtain ⟨k2, v2⟩ := kv
    rw [List.lookup_cons]
    by_cases hk : k = k2
    · subst hk; simp
    · have hb : (k == k2) = false := by simpa using hk
      simp only [hb, List.map_cons, List.mem_cons, hk, false_or]
      exact ih

theorem lookup_eq_none_iff_not_mem_keys (m : StrMap) (k : Str) :
    m.lookup k = none ↔ k ∉ m.map Prod.fst := by
  rw [← lookup_isSome_iff_mem_keys]
  cases m.lookup k <;> simp

theorem sliceStr_matchText (name : Str) :
    sliceStr (matchText name) 1 ((matchText name).length - 1) = name := by
  simp [sliceStr, matchText]

theorem sliceStr_bracket (template : Str) :
    sliceStr (bracket template) 1 ((bracket template).length - 1) = template := by
  simp [sliceStr, bracket]

/-- What the replacement function does with a match, by the capture group of the match. -/
theorem replaceMatch_matchText (envValues : StrMap) (name : Str) :
    replaceMatch envValues (matchText name)
      = match envValues.lookup name with
        | some val => val
        | none => matchText name := by
  simp only [replaceMatch, sliceStr_matchText]

theorem hasPrefixStr_bracket (template : Str) : hasPrefixStr (bracket template) ['['] = true := by
  simp [hasPrefixStr, bracket]

theorem hasSuffixStr_bracket (template : Str) : hasSuffixStr (bracket template) [']'] = true := by
  unfold hasSuffixStr bracket
  rw [List.isSuffixOf_iff_suffix]
  exact ⟨'[' :: template, by simp⟩

/-- A value that starts with `[` and ends with `]` is `[` + template + `]` for the template
between them. -/
theorem bracket_of_wrapped {value : Str} (hpre : ['['] <+: value) (hsuf : [']'] <:+ value) :
    ∃ template, value = bracket template := by
  obtain ⟨r, hr⟩ := hpre
  obtain ⟨q, hq⟩ := hsuf
  cases q with
  | nil =>
    rw [← hr] at hq
    simp at hq
  | cons c q2 =>
    rw [← hr] at hq
    simp only [List.cons_append, List.singleton_append, List.cons.injEq] at hq
    refine ⟨q2, ?_⟩
    rw [← hr, bracket, hq.2]
    rfl

/-- The function on a bracketed value, with the bracket test and the slice resolved. -/
theorem interpolateValue_bracket (template : Str) (envValues : StrMap) :
    interpolateValue (bracket template) envValues
      = if MatchString (ReplaceAllStringFunc template (replaceMatch envValues)) then
          Except.error (Err.unresolved
            ((FindAllStringSubmatch
              (ReplaceAllStringFunc template (replaceMatch envValues))).map fun m => m.2))
        else Except.ok (ReplaceAllStringFunc template (replaceMatch envValues)) := by
  simp only [interpolateValue, hasPrefixStr_bracket, hasSuffixStr_bracket, Bool.and_self,
    if_true, sliceStr_bracket]

theorem replaceAll_eq_replaceSegs (template : Str) (envValues : StrMap) :
    ReplaceAllStringFunc template (replaceMatch envValues)
      = replaceSegs envValues (segments template) := rfl

theorem replaceSegs_nil (envValues : StrMap) : replaceSegs envValues [] = [] := rfl

theorem replaceSegs_lit (envValues : StrMap) (c : Char) (segs : List Seg) :
    replaceSegs envValues (Seg.lit c :: segs) = c :: replaceSegs envValues segs := by
  simp [replaceSegs]

theorem replaceSegs_hole (envValues : StrMap) (name : Str) (segs : List Seg) :
    replaceSegs envValues (Seg.hole name :: segs)
      = (match envValues.lookup name with
          | some val => val
          | none => matchText name) ++ replaceSegs envValues segs := by
  simp [replaceSegs, replaceMatch_matchText]

theorem replaceSegs_append (envValues : StrMap) (a b : List Seg) :
    replaceSegs envValues (a ++ b) = replaceSegs envValues a ++ replaceSegs envValues b := by
  simp [replaceSegs]

/-- When every placeholder is a key of the map, the replacement is the substitution of the
specification. -/
theorem replaceSegs_eq_substitute (envValues : StrMap) (segs : List Seg)
    (h : ∀ name, Seg.hole name ∈ segs → name ∈ envValues.map Prod.fst) :
    replaceSegs envValues segs = substitute envValues segs := by
  induction segs with
  | nil => rfl
  | cons a rest ih =>
    have ih2 := ih fun n hn => h n (List.mem_cons_of_mem _ hn)
    cases a with
    | lit c => rw [replaceSegs_lit, substitute, ih2]
    | hole name =>
      rw [replaceSegs_hole, substitute, ih2]
      have hk := (lookup_isSome_iff_mem_keys envValues name).mpr (h name (List.mem_cons_self _ _))
      cases hl : envValues.lookup name with
      | none => rw [hl] at hk; simp at hk
      | some v => rfl

/-! ## The claims -/

/-- C1. For a value `[` + T + `]` and a map that has every placeholder identifier of T as a
key, when the substituted text holds no further match, `interpolateValue` returns without
error the text T with every placeholder replaced by the map's value for its identifier and
every other character kept; the substituted values are not scanned again for substitution.
The scanned pieces written out in full are T itself. -/
theorem interpolateValue_substitutes (template : Str) (envValues : StrMap)
    (hkeys : ∀ id ∈ placeholders template, id ∈ envValues.map Prod.fst)
    (hclean : MatchString (substitute envValues (segments template)) = false) :
    render (segments template) = template ∧
      interpolateValue (bracket template) envValues
        = Except.ok (substitute envValues (segments template)) := by
  refine ⟨render_segments template, ?_⟩
  have hsub : ReplaceAllStringFunc template (replaceMatch envValues)
      = substitute envValues (segments template) := by
    rw [replaceAll_eq_replaceSegs]
    exact replaceSegs_eq_substitute envValues _ fun n hn => hkeys n (mem_placeholders.mpr hn)
  rw [interpolateValue_bracket, hsub, hclean]
  rfl

/-- C1, at the value `[{FOO}-suffix]` with `FOO=bar`: the result is `bar-suffix`. -/
theorem interpolateValue_substitutes_witness :
    interpolateValue "[\x7bFOO\x7d-suffix]".toList [("FOO".toList, "bar".toList)]
      = Except.ok "bar-suffix".toList :=
  (interpolateValue_substitutes "\x7bFOO\x7d-suffix".toList [("FOO".toList, "bar".toList)]
    (by decide) (by decide)).2

/-- C2. A value that does not both start with `[` and end with `]` is returned unchanged and
without error, whatever the map holds and whatever braces the value contains. -/
theorem interpolateValue_unwrapped (value : Str) (envValues : StrMap)
    (h : ¬ (['['] <+: value ∧ [']'] <:+ value)) :
    interpolateValue value envValues = Except.ok value := by
  unfold interpolateValue hasPrefixStr hasSuffixStr
  rw [if_neg]
  rw [Bool.and_eq_true, List.isPrefixOf_iff_prefix, List.isSuffixOf_iff_suffix]
  exact h

/-- C2, at the value `{FOO}-suffix` with `FOO=bar`: the braces are left alone. -/
theorem interpolateValue_unwrapped_witness :
    ¬ (['['] <+: "\x7bFOO\x7d-suffix".toList ∧ [']'] <:+ "\x7bFOO\x7d-suffix".toList) ∧
      interpolateValue "\x7bFOO\x7d-suffix".toList [("FOO".toList, "bar".toList)]
        = Except.ok "\x7bFOO\x7d-suffix".toList :=
  ⟨by decide, interpolateValue_unwrapped _ _ (by decide)⟩

/-- C3. A bracketed value whose template has a placeholder whose identifier is not a key of
the map makes `interpolateValue` fail with the unresolved-interpolation error, which names at
least one variable. -/
theorem interpolateValue_unresolved_fails (template : Str) (envValues : StrMap) (id : Str)
    (hid : id ∈ placeholders template) (hmiss : id ∉ envValues.map Prod.fst) :
    ∃ missingVars, missingVars ≠ [] ∧
      interpolateValue (bracket template) envValues
        = Except.error (Err.unresolved missingVars) := by
  rw [mem_placeholders] at hid
  obtain ⟨hne, hclose⟩ := hole_of_mem_segments hid
  obtain ⟨a, b, hab⟩ := List.append_of_mem hid
  have hres : ReplaceAllStringFunc template (replaceMatch envValues)
      = replaceSegs envValues a ++ matchText id ++ replaceSegs envValues b := by
    rw [replaceAll_eq_replaceSegs, hab, replaceSegs_append, replaceSegs_hole,
      (lookup_eq_none_iff_not_mem_keys envValues id).mpr hmiss]
    simp
  have hmatch : MatchString (ReplaceAllStringFunc template (replaceMatch envValues)) = true := by
    rw [hres]
    exact matchString_of_infix _ _ hne hclose
  refine ⟨_, ?_, by rw [interpolateValue_bracket, hmatch]; rfl⟩
  obtain ⟨n, hn⟩ := matchString_eq_true.mp hmatch
  intro hnil
  have hmem : n ∈ (FindAllStringSubmatch
      (ReplaceAllStringFunc template (replaceMatch envValues))).map fun m => m.2 := by
    rw [List.mem_map]
    refine ⟨(matchText n, n), ?_, rfl⟩
    unfold FindAllStringSubmatch
    rw [List.mem_filterMap]
    exact ⟨Seg.hole n, hn, rfl⟩
  rw [hnil] at hmem
  simp at hmem

/-- C3, at the value `[{MISSING}]` with an empty map. -/
theorem interpolateValue_unresolved_fails_witness :
    "MISSING".toList ∈ placeholders "\x7bMISSING\x7d".toList ∧
      ∃ missingVars, missingVars ≠ [] ∧
        interpolateValue (bracket "\x7bMISSING\x7d".toList) []
          = Except.error (Err.unresolved missingVars) :=
  ⟨by decide, interpolateValue_unresolved_fails _ [] "MISSING".toList (by decide) (by simp)⟩

/-! ### The names the error reports -/

theorem placeholders_eq_holeNames (template : Str) :
    placeholders template = holeNames (segments template) := rfl

theorem findAll_names (s : Str) :
    ((FindAllStringSubmatch s).map fun m => m.2) = holeNames (segments s) := by
  unfold FindAllStringSubmatch holeNames
  induction segments s with
  | nil => rfl
  | cons a rest ih =>
    cases a with
    | lit c => simpa using ih
    | hole n => simpa using ih

theorem mem_holeNames {segs : List Seg} {name : Str} :
    name ∈ holeNames segs ↔ Seg.hole name ∈ segs := by
  unfold holeNames
  rw [List.mem_filterMap]
  constructor
  · rintro ⟨a, ha, hs⟩
    cases a with
    | lit c => simp at hs
    | hole n => simp only [Option.some.injEq] at hs; subst hs; exact ha
  · intro h
    exact ⟨Seg.hole name, h, rfl⟩

/-- The first closing brace of a text is where it is: two ways of cutting a text at a closing
brace with none before it are the same cut. -/
theorem first_close_unique {a b c d : Str} (ha : '}' ∉ a) (hc : '}' ∉ c)
    (h : a ++ '}' :: b = c ++ '}' :: d) : a = c ∧ b = d := by
  have h1 := untilClose_append b ha
  rw [h, untilClose_append d hc] at h1
  simp only [Option.some.injEq, Prod.mk.injEq] at h1
  exact ⟨h1.1.symm, h1.2.symm⟩

/-- A match that starts at or before a well-formed placeholder either ends with it, its
capture group then ending in the placeholder's identifier, or ends before it. -/
theorem match_over_placeholder {name rest pre id post : Str} (hname : '}' ∉ name)
    (hid : '}' ∉ id)
    (h : matchText name ++ rest = pre ++ matchText id ++ post) :
    id <:+ name ∨ ∃ pre2, rest = pre2 ++ matchText id ++ post := by
  have e1 : matchText name ++ rest = ('{' :: name) ++ '}' :: rest := by simp [matchText]
  by_cases hp : '}' ∈ pre
  · right
    cases hu : untilClose pre with
    | none => exact absurd hp (untilClose_eq_none.mp hu)
    | some q =>
      obtain ⟨a, b⟩ := q
      obtain ⟨hab, ha⟩ := untilClose_eq_some hu
      have e2 : pre ++ matchText id ++ post = a ++ '}' :: (b ++ matchText id ++ post) := by
        rw [hab]; simp
      rw [e1, e2] at h
      have hn : '}' ∉ '{' :: name := by simp [hname]
      exact ⟨b, (first_close_unique hn ha h).2⟩
  · left
    have e2 : pre ++ matchText id ++ post = (pre ++ '{' :: id) ++ '}' :: post := by
      simp [matchText]
    rw [e1, e2] at h
    have hn : '}' ∉ '{' :: name := by simp [hname]
    have hq : '}' ∉ pre ++ '{' :: id := by simp [hp, hid]
    have hcut := (first_close_unique hn hq h).1
    cases pre with
    | nil =>
      simp only [List.nil_append, List.cons.injEq, true_and] at hcut
      rw [hcut]
    | cons x xs =>
      simp only [List.cons_append, List.cons.injEq] at hcut
      rw [hcut.2]
      exact ⟨xs ++ ['{'], by simp⟩

/-- A well-formed placeholder left in a text is reported by the scan, as the capture group
of a match that ends with it. -/
theorem placeholder_reported (post : Str) {id : Str} (hne : id ≠ []) (hid : '}' ∉ id)
    (s : Str) : ∀ pre, s = pre ++ matchText id ++ post →
      ∃ e, Seg.hole e ∈ segments s ∧ id <:+ e := by
  induction s using scan_induction with
  | hnil =>
    intro pre h
    have := congrArg List.length h
    simp [matchText] at this
    omega
  | hhole c cs name rest hm ih =>
    intro pre h
    obtain ⟨hs, _, hname⟩ := matchAt_eq_some hm
    rw [segments_cons_of_match hm]
    rcases match_over_placeholder hname hid (hs.symm.trans h) with hsuf | ⟨pre2, hrest⟩
    · exact ⟨name, List.mem_cons_self _ _, hsuf⟩
    · obtain ⟨e, he, hsuf⟩ := ih pre2 hrest
      exact ⟨e, List.mem_cons_of_mem _ he, hsuf⟩
  | hlit c cs hm ih =>
    intro pre h
    cases pre with
    | nil =>
      rw [h, List.nil_append, matchAt_matchText post hne hid] at hm
      simp at hm
    | cons x xs =>
      simp only [List.cons_append, List.cons.injEq] at h
      obtain ⟨e, he, hsuf⟩ := ih xs h.2
      rw [segments_cons_of_no_match hm]
      exact ⟨e, List.mem_cons_of_mem _ he, hsuf⟩

/-- A text with no closing brace has no match. -/
theorem segments_of_no_close (s : Str) (h : '}' ∉ s) : segments s = s.map Seg.lit := by
  induction s with
  | nil => rfl
  | cons c cs ih =>
    simp only [List.mem_cons, not_or] at h
    have hm : matchAt (c :: cs) = none := by
      by_cases hc : c = '{'
      · simp [matchAt, hc, untilClose_eq_none.mpr h.2]
      · exact matchAt_of_ne_open cs hc
    rw [segments_cons_of_no_match hm, ih h.2]
    rfl

/-- Characters other than the opening brace in front of a text are stepped over. -/
theorem segments_append_of_no_open (v s : Str) (h : '{' ∉ v) :
    segments (v ++ s) = v.map Seg.lit ++ segments s := by
  induction v with
  | nil => rfl
  | cons c cs ih =>
    simp only [List.mem_cons, not_or] at h
    have hm : matchAt (c :: (cs ++ s)) = none := matchAt_of_ne_open _ (Ne.symm h.1)
    rw [List.cons_append, segments_cons_of_no_match hm, ih h.2]
    rfl

theorem replaceSegs_map_lit (envValues : StrMap) (s : Str) :
    replaceSegs envValues (s.map Seg.lit) = s := by
  induction s with
  | nil => rfl
  | cons c cs ih => rw [List.map_cons, replaceSegs_lit, ih]

/-- When no value that is substituted holds an opening brace, scanning the substituted text
gives the pieces of the template with the resolved placeholders turned into characters. -/
theorem segments_replaceSegs (envValues : StrMap) (s : Str) :
    (∀ name ∈ placeholders s, ∀ v, envValues.lookup name = some v → '{' ∉ v) →
      segments (replaceSegs envValues (segments s)) = expandSegs envValues (segments s) := by
  induction s using scan_induction with
  | hnil => intro _; rfl
  | hhole c cs name rest hm ih =>
    intro h
    obtain ⟨_, hne, hname⟩ := matchAt_eq_some hm
    have hrest : ∀ n ∈ placeholders rest, ∀ v, envValues.lookup n = some v → '{' ∉ v := by
      intro n hn
      apply h n
      rw [mem_placeholders, segments_cons_of_match hm]
      exact List.mem_cons_of_mem _ (mem_placeholders.mp hn)
    have hhead : ∀ v, envValues.lookup name = some v → '{' ∉ v := by
      apply h name
      rw [mem_placeholders, segments_cons_of_match hm]
      exact List.mem_cons_self _ _
    rw [segments_cons_of_match hm, replaceSegs_hole, expandSegs]
    cases hl : envValues.lookup name with
    | some v =>
      simp only
      rw [segments_append_of_no_open _ _ (hhead v hl), ih hrest]
    | none =>
      simp only
      have hm2 := matchAt_matchText (replaceSegs envValues (segments rest)) hne hname
      have e : matchText name ++ replaceSegs envValues (segments rest)
          = '{' :: (name ++ '}' :: replaceSegs envValues (segments rest)) := by
        simp [matchText]
      rw [e] at hm2 ⊢
      rw [segments_cons_of_match hm2, ih hrest]
      rfl
  | hlit c cs hm ih =>
    intro h
    have hrest : ∀ n ∈ placeholders cs, ∀ v, envValues.lookup n = some v → '{' ∉ v := by
      intro n hn
      apply h n
      rw [mem_placeholders, segments_cons_of_no_match hm]
      exact List.mem_cons_of_mem _ (mem_placeholders.mp hn)
    rw [segments_cons_of_no_match hm, replaceSegs_lit, expandSegs]
    have hm2 : matchAt (c :: replaceSegs envValues (segments cs)) = none := by
      by_cases hc : c = '{'
      · subst hc
        cases hu : untilClose cs with
        | none =>
          have hno := untilClose_eq_none.mp hu
          rw [segments_of_no_close cs hno, replaceSegs_map_lit]
          exact hm
        | some q =>
          obtain ⟨a, b⟩ := q
          cases a with
          | cons x xs => simp [matchAt, hu] at hm
          | nil =>
            have hcs := (untilClose_eq_some hu).1
            simp only [List.nil_append] at hcs
            subst hcs
            have hm3 : matchAt ('}' :: b) = none := matchAt_of_ne_open b (by decide)
            rw [segments_cons_of_no_match hm3, replaceSegs_lit]
            simp [matchAt, untilClose]
      · exact matchAt_of_ne_open _ hc
    rw [segments_cons_of_no_match hm2, ih hrest]

theorem holeNames_expandSegs (envValues : StrMap) (segs : List Seg) :
    holeNames (expandSegs envValues segs)
      = (holeNames segs).filter fun id => (envValues.lookup id).isNone := by
  induction segs with
  | nil => rfl
  | cons a rest ih =>
    cases a with
    | lit c =>
      rw [expandSegs]
      simpa [holeNames] using ih
    | hole name =>
      rw [expandSegs]
      have hlits : ∀ v : Str, holeNames (v.map Seg.lit) = [] := by
        intro v
        induction v with
        | nil => rfl
        | cons x xs _ => simp [holeNames]
      have happ : ∀ a b : List Seg, holeNames (a ++ b) = holeNames a ++ holeNames b := by
        intro a b
        simp [holeNames]
      have hcons : holeNames (Seg.hole name :: rest) = name :: holeNames rest := by
        simp [holeNames]
      rw [happ, ih, hcons]
      cases hl : envValues.lookup name with
      | some v => simp [hlits, List.filter_cons, hl]
      | none => simp [holeNames, List.filter_cons, hl]

/-- A failure of `interpolateValue` on a bracketed value is the unresolved-interpolation
error, and it reports the capture groups of the matches of the substituted text. -/
theorem interpolateValue_error {template : Str} {envValues : StrMap} {err : Err}
    (h : interpolateValue (bracket template) envValues = Except.error err) :
    err = Err.unresolved (holeNames (segments (replaceSegs envValues (segments template)))) := by
  rw [interpolateValue_bracket, replaceAll_eq_replaceSegs, findAll_names] at h
  split at h
  · simp only [Except.error.injEq] at h
    exact h.symm
  · simp at h

/-- C4, as stated, fails: with `A` set to `{x`, the template `{A}{B}` becomes `{x{B}`, and
the error names `x{B`; the unresolved identifier `B` is not in the list. -/
theorem interpolateValue_reports_counterexample :
    "B".toList ∈ placeholders "\x7bA\x7d\x7bB\x7d".toList ∧
      "B".toList ∉ [("A".toList, "\x7bx".toList)].map Prod.fst ∧
      interpolateValue (bracket "\x7bA\x7d\x7bB\x7d".toList) [("A".toList, "\x7bx".toList)]
        = Except.error (Err.unresolved ["x\x7bB".toList]) ∧
      "B".toList ∉ ["x\x7bB".toList] := by
  decide

/-- C4, amended. When `interpolateValue` fails on a bracketed value, the error is the
unresolved-interpolation error; every placeholder identifier of the template that is not a key
of the map is the end of one of the reported names; and when no value substituted for a
placeholder holds an opening brace, the reported names are exactly the identifiers of the
template that are not keys of the map, in order. -/
theorem interpolateValue_reports (template : Str) (envValues : StrMap) (err : Err)
    (hfail : interpolateValue (bracket template) envValues = Except.error err) :
    ∃ missingVars, err = Err.unresolved missingVars ∧
      (∀ id ∈ placeholders template, id ∉ envValues.map Prod.fst →
        ∃ e ∈ missingVars, id <:+ e) ∧
      ((∀ id ∈ placeholders template, ∀ v, envValues.lookup id = some v → '{' ∉ v) →
        missingVars = unresolvedIds envValues template) := by
  refine ⟨_, interpolateValue_error hfail, ?_, ?_⟩
  · intro id hid hmiss
    rw [mem_placeholders] at hid
    obtain ⟨hne, hclose⟩ := hole_of_mem_segments hid
    obtain ⟨a, b, hab⟩ := List.append_of_mem hid
    have hres : replaceSegs envValues (segments template)
        = replaceSegs envValues a ++ matchText id ++ replaceSegs envValues b := by
      rw [hab, replaceSegs_append, replaceSegs_hole,
        (lookup_eq_none_iff_not_mem_keys envValues id).mpr hmiss]
      simp
    obtain ⟨e, he, hsuf⟩ := placeholder_reported (replaceSegs envValues b) hne hclose _ _ hres
    exact ⟨e, mem_holeNames.mpr he, hsuf⟩
  · intro hval
    rw [segments_replaceSegs envValues template hval, holeNames_expandSegs]
    rfl

/-- C4 amended, at the template `{A}-{B}-{C}` with only `A` set: the error names `B` and
`C`. -/
theorem interpolateValue_reports_witness :
    interpolateValue (bracket "\x7bA\x7d-\x7bB\x7d-\x7bC\x7d".toList) [("A".toList, "a".toList)]
        = Except.error (Err.unresolved ["B".toList, "C".toList]) ∧
      ∃ missingVars, Err.unresolved ["B".toList, "C".toList] = Err.unresolved missingVars ∧
        (∀ id ∈ placeholders "\x7bA\x7d-\x7bB\x7d-\x7bC\x7d".toList,
          id ∉ [("A".toList, "a".toList)].map Prod.fst → ∃ e ∈ missingVars, id <:+ e) ∧
        ((∀ id ∈ placeholders "\x7bA\x7d-\x7bB\x7d-\x7bC\x7d".toList,
            ∀ v, [("A".toList, "a".toList)].lookup id = some v → '{' ∉ v) →
          missingVars = unresolvedIds [("A".toList, "a".toList)]
            "\x7bA\x7d-\x7bB\x7d-\x7bC\x7d".toList) :=
  ⟨by decide, interpolateValue_reports _ _ _ (by decide)⟩

/-! ### The second loop -/

theorem assignFields_nil (environ : StrMap) (options : LoadOptions) (envValues : StrMap) :
    assignFields environ options envValues [] = ([], none) := rfl

theorem assignFields_cons_error {environ : StrMap} {options : LoadOptions}
    {envValues : StrMap} {f : Field} {err : Err} (rest : List Field)
    (h : assignField environ options envValues f = Except.error err) :
    assignFields environ options envValues (f :: rest) = (f :: rest, some err) := by
  simp only [assignFields, h]

theorem assignFields_cons_ok {environ : StrMap} {options : LoadOptions}
    {envValues : StrMap} {f g : Field} (rest : List Field)
    (h : assignField environ options envValues f = Except.ok g) :
    assignFields environ options envValues (f :: rest)
      = (g :: (assignFields environ options envValues rest).1,
          (assignFields environ options envValues rest).2) := by
  simp only [assignFields, h]

/-- The loop leaves as many fields as it was given. -/
theorem assignFields_length (environ : StrMap) (options : LoadOptions) (envValues : StrMap)
    (fields : List Field) :
    (assignFields environ options envValues fields).1.length = fields.length := by
  induction fields with
  | nil => rfl
  | cons f rest ih =>
    cases h : assignField environ options envValues f with
    | error err => rw [assignFields_cons_error rest h]
    | ok g => rw [assignFields_cons_ok rest h]; simp [ih]

/-- When the loop runs through `pre` without returning, it goes on with what follows. -/
theorem assignFields_append {environ : StrMap} {options : LoadOptions} {envValues : StrMap}
    {pre : List Field} (rest : List Field)
    (h : (assignFields environ options envValues pre).2 = none) :
    assignFields environ options envValues (pre ++ rest)
      = ((assignFields environ options envValues pre).1
            ++ (assignFields environ options envValues rest).1,
          (assignFields environ options envValues rest).2) := by
  induction pre with
  | nil => rfl
  | cons f fs ih =>
    cases hf : assignField environ options envValues f with
    | error err =>
      rw [assignFields_cons_error fs hf] at h
      simp at h
    | ok g =>
      rw [assignFields_cons_ok fs hf] at h
      rw [List.cons_append, assignFields_cons_ok (fs ++ rest) hf, assignFields_cons_ok fs hf,
        ih h]
      rfl

/-- The iteration for a settable required field whose variable is empty returns the
missing-variable error. -/
theorem assignField_missing {environ : StrMap} {options : LoadOptions} {f : Field}
    (envValues : StrMap) (hset : f.CanSet = true)
    (hreq : isFieldRequired f.type options.RequiredByDefault = true)
    (hempty : Getenv environ (getEnvName f.type) = []) :
    assignField environ options envValues f
      = Except.error (Err.missingRequired (getEnvName f.type)) := by
  simp [assignField, hset, hreq, hempty]

/-- The iteration for a field that is not required and whose variable is empty leaves the
field as it is. -/
theorem assignField_skip {environ : StrMap} {options : LoadOptions} {f : Field}
    (envValues : StrMap) (hreq : isFieldRequired f.type options.RequiredByDefault = false)
    (hempty : Getenv environ (getEnvName f.type) = []) :
    assignField environ options envValues f = Except.ok f := by
  simp [assignField, hreq, hempty]

/-! ### strings.Contains and the rules of a tag -/

theorem containsStr_iff (s substr : Str) : containsStr s substr = true ↔ substr <:+: s := by
  induction s with
  | nil =>
    rw [containsStr, List.infix_nil, List.isEmpty_iff]
  | cons c cs ih =>
    rw [containsStr, Bool.or_eq_true, List.isPrefixOf_iff_prefix, ih, List.infix_cons_iff]

/-- Every rule of a tag is a piece of the text of the tag. -/
theorem tagTokens_infix (s : Str) :
    ∃ t ts, tagTokens s = t :: ts ∧ t <+: s ∧ ∀ x ∈ ts, x <:+: s := by
  induction s with
  | nil => exact ⟨[], [], rfl, List.prefix_refl _, by simp⟩
  | cons c cs ih =>
    obtain ⟨t, ts, hts, hpre, hin⟩ := ih
    by_cases hc : c = ','
    · refine ⟨[], t :: ts, by simp [tagTokens, hc, hts], List.nil_prefix, ?_⟩
      intro x hx
      rcases List.mem_cons.mp hx with hx | hx
      · rw [hx]
        exact List.infix_cons hpre.isInfix
      · exact List.infix_cons (hin x hx)
    · refine ⟨c :: t, ts, by simp [tagTokens, hc, hts], ?_, ?_⟩
      · obtain ⟨r, hr⟩ := hpre
        exact ⟨r, by rw [← hr]; rfl⟩
      · intro x hx
        exact List.infix_cons (hin x hx)

theorem containsStr_of_mem_tagTokens {s tok : Str} (h : tok ∈ tagTokens s) :
    containsStr s tok = true := by
  rw [containsStr_iff]
  obtain ⟨t, ts, hts, hpre, hin⟩ := tagTokens_infix s
  rw [hts] at h
  rcases List.mem_cons.mp h with h | h
  · rw [h]
    exact hpre.isInfix
  · exact hin tok h

/-! ### Load -/

/-- The outcome of `Load` when reading the file does not fail and `processStruct` returns an
error: that error, whatever the validator would find. -/
theorem Load_of_processStruct_error {validateStruct : List Field → List FieldError}
    {target t : Target} {opts : List LoadOptions} {w : World} {environ : StrMap} {err : Err}
    (hfile : loadEnvFile (resolveOptions opts) w = Except.ok environ)
    (h : processStruct target (resolveOptions opts) environ = (t, some err)) :
    Load validateStruct target opts w = { environ := environ, target := t, err := some err } := by
  simp only [Load, hfile, h]

/-- The outcome of `Load` when reading the file does not fail, `processStruct` returns no
error and the validator finds nothing. -/
theorem Load_of_processStruct_ok {validateStruct : List Field → List FieldError}
    {target : Target} {fields : List Field} {opts : List LoadOptions} {w : World}
    {environ : StrMap}
    (hfile : loadEnvFile (resolveOptions opts) w = Except.ok environ)
    (h : processStruct target (resolveOptions opts) environ = (Target.structPtr fields, none))
    (hvalid : validateStruct fields = []) :
    Load validateStruct target opts w
      = { environ := environ, target := Target.structPtr fields, err := none } := by
  simp only [Load, hfile, h, hvalid]

/-- C5, as stated, fails: in a struct of two required fields `A` and `B` with neither
variable set, `Load` returns the error that names `A`; no error names `B`. -/
theorem Load_missing_required_counterexample :
    isFieldRequired (stringField "B".toList [] []).type true = true ∧
      Getenv [] (getEnvName (stringField "B".toList [] []).type) = [] ∧
      (Load acceptAll
          (Target.structPtr [stringField "A".toList [] [], stringField "B".toList [] []])
          [] (noFiles [])).err = some (Err.missingRequired "A".toList) ∧
      (Load acceptAll
          (Target.structPtr [stringField "A".toList [] [], stringField "B".toList [] []])
          [] (noFiles [])).err ≠ some (Err.missingRequired "B".toList) := by
  decide

/-- C5, amended. When reading the env file does not fail, and the second loop runs through
the fields declared before `f` without returning, a settable required field `f` whose variable
is empty makes `Load` return the missing-variable error that names the environment key of `f`
(its `env` tag, else its field name), whatever the validator would find: the validator is not
reached. -/
theorem Load_missing_required (validateStruct : List Field → List FieldError)
    (pre post : List Field) (f : Field) (opts : List LoadOptions) (w : World)
    (environ : StrMap)
    (hfile : loadEnvFile (resolveOptions opts) w = Except.ok environ)
    (hpre : (assignFields environ (resolveOptions opts)
      (collectEnvValues environ (pre ++ f :: post) []) pre).2 = none)
    (hset : f.CanSet = true)
    (hreq : isFieldRequired f.type (resolveOptions opts).RequiredByDefault = true)
    (hempty : Getenv environ (getEnvName f.type) = []) :
    (Load validateStruct (Target.structPtr (pre ++ f :: post)) opts w).err
        = some (Err.missingRequired (getEnvName f.type)) ∧
      getEnvName f.type = (if f.type.envTag ≠ [] then f.type.envTag else f.type.Name) := by
  refine ⟨?_, rfl⟩
  have hps : processStruct (Target.structPtr (pre ++ f :: post)) (resolveOptions opts) environ
      = (Target.structPtr ((assignFields environ (resolveOptions opts)
            (collectEnvValues environ (pre ++ f :: post) []) pre).1 ++ f :: post),
          some (Err.missingRequired (getEnvName f.type))) := by
    simp only [processStruct]
    rw [assignFields_append _ hpre,
      assignFields_cons_error post (assignField_missing _ hset hreq hempty)]
  rw [Load_of_processStruct_error hfile hps]

/-- C5 amended, at the struct `Env` with `DB_URL` and `DB_TOKEN` unset and default options:
the optional `DATABASE_URL` is passed over and the error names `DB_TOKEN`, also under a
validator that rejects everything. -/
theorem Load_missing_required_witness :
    (Load (fun _ => [{ Field := "DATABASE_URL".toList, Tag := "url".toList }]) Env []
        (noFiles [("DB_NAME".toList, "n".toList)])).err
      = some (Err.missingRequired "DB_TOKEN".toList) :=
  (Load_missing_required _ [stringField "DATABASE_URL".toList "DB_URL".toList
      "omitempty,url".toList] [stringField "DB_NAME".toList [] [],
      stringField "DB_TURSO_USER".toList [] []] (stringField "DB_TOKEN".toList [] []) []
    (noFiles [("DB_NAME".toList, "n".toList)]) [("DB_NAME".toList, "n".toList)]
    (by decide) (by decide) (by decide) (by decide) (by decide)).1

/-- C6, as stated, fails: the tag `required_with=Email` holds neither the rule `required`
nor the rule `omitempty`, yet with the default `false` the function returns `true`. -/
theorem isFieldRequired_counterexample :
    "required".toList ∉ tagTokens "required_with=Email".toList ∧
      "omitempty".toList ∉ tagTokens "required_with=Email".toList ∧
      isFieldRequired (stringField "Name".toList [] "required_with=Email".toList).type false
        = true := by
  decide

/-- C6, amended. `isFieldRequired` returns `true` when the text `required` occurs anywhere in
the `validate` tag, so whenever the tag has the rule `required`; otherwise `false` when the
text `omitempty` occurs in the tag, so whenever the tag has the rule `omitempty`; otherwise
the default, the empty tag included. -/
theorem isFieldRequired_cases (field : StructField) (d : Bool) :
    (containsStr field.validateTag "required".toList = true → isFieldRequired field d = true) ∧
      ("required".toList ∈ tagTokens field.validateTag → isFieldRequired field d = true) ∧
      (containsStr field.validateTag "required".toList = false →
        containsStr field.validateTag "omitempty".toList = true →
        isFieldRequired field d = false) ∧
      (containsStr field.validateTag "required".toList = false →
        "omitempty".toList ∈ tagTokens field.validateTag → isFieldRequired field d = false) ∧
      (containsStr field.validateTag "required".toList = false →
        containsStr field.validateTag "omitempty".toList = false →
        isFieldRequired field d = d) ∧
      (field.validateTag = [] → isFieldRequired field d = d) := by
  have hreq : containsStr field.validateTag "required".toList = true →
      isFieldRequired field d = true := by
    intro h
    have hne : field.validateTag ≠ [] := by
      intro hnil
      rw [hnil] at h
      exact absurd h (by decide)
    simp only [isFieldRequired, if_neg hne, h, if_true]
  have homit : containsStr field.validateTag "required".toList = false →
      containsStr field.validateTag "omitempty".toList = true →
      isFieldRequired field d = false := by
    intro h1 h2
    have hne : field.validateTag ≠ [] := by
      intro hnil
      rw [hnil] at h2
      exact absurd h2 (by decide)
    simp only [isFieldRequired, if_neg hne, h1, h2, if_true, Bool.false_eq_true, if_false]
  refine ⟨hreq, fun h => hreq (containsStr_of_mem_tagTokens h), homit,
    fun h1 h2 => homit h1 (containsStr_of_mem_tagTokens h2), ?_, ?_⟩
  · intro h1 h2
    simp only [isFieldRequired, h1, h2, Bool.false_eq_true, if_false, ite_self]
  · intro h
    simp only [isFieldRequired, h, if_true]

/-- C7: the code at the failing input.  With options given as `LoadOptions{EnvFile: ".env"}`,
where Go leaves `RequiredByDefault` at `false`, a settable field with no `validate` tag and no
variable is passed over and `Load` returns no error; with the options omitted the same call
returns the missing-variable error. -/
theorem Load_options_without_default :
    (Load acceptAll (Target.structPtr [stringField "DB_TOKEN".toList [] []])
        [{ EnvFile := ".env".toList, RequiredByDefault := false }] (noFiles [])).err = none ∧
      (Load acceptAll (Target.structPtr [stringField "DB_TOKEN".toList [] []])
        [] (noFiles [])).err = some (Err.missingRequired "DB_TOKEN".toList) ∧
      resolveOptions [] = { EnvFile := ".env".toList, RequiredByDefault := true } := by
  decide

/-! ### The first loop -/

theorem collectEnvValues_append (environ : StrMap) (pre rest : List Field) (m : StrMap) :
    collectEnvValues environ (pre ++ rest) m
      = collectEnvValues environ rest (collectEnvValues environ pre m) := by
  induction pre generalizing m with
  | nil => rfl
  | cons f fs ih => exact ih _

/-- A field whose variable is empty records nothing. -/
theorem collectField_of_empty {environ : StrMap} {f : Field} (m : StrMap)
    (h : Getenv environ (getEnvName f.type) = []) : collectField environ m f = m := by
  simp [collectField, h]

/-- What a lookup finds after one iteration of the first loop. -/
theorem lookup_collectField (environ : StrMap) (m : StrMap) (f : Field) (k : Str) :
    (collectField environ m f).lookup k
      = if f.CanSet = true ∧ Getenv environ (getEnvName f.type) ≠ [] ∧
            (k = getEnvName f.type ∨ k = f.type.Name) then
          some (Getenv environ (getEnvName f.type))
        else m.lookup k := by
  unfold collectField
  by_cases hset : f.CanSet = true
  · by_cases hne : Getenv environ (getEnvName f.type) = []
    · simp [hset, hne]
    · simp only [hset, Bool.not_true, Bool.false_eq_true, if_false, ne_eq, hne,
        not_false_eq_true, if_true, true_and, List.lookup_cons]
      by_cases h1 : k = f.type.Name
      · simp [h1]
      · have hb1 : (k == f.type.Name) = false := by simpa using h1
        by_cases h2 : k = getEnvName f.type
        · subst h2
          simp [hb1]
        · have hb2 : (k == getEnvName f.type) = false := by simpa using h2
          simp [hb1, hb2, h1, h2]
  · simp [hset]

theorem lookup_collectField_of_writes {environ : StrMap} {f : Field} {k : Str} (m : StrMap)
    (h : writesKey environ f k) :
    (collectField environ m f).lookup k = some (Getenv environ (getEnvName f.type)) := by
  rw [lookup_collectField]
  exact if_pos h

theorem lookup_collectField_of_not_writes {environ : StrMap} {f : Field} {k : Str}
    (m : StrMap) (h : ¬ writesKey environ f k) :
    (collectField environ m f).lookup k = m.lookup k := by
  rw [lookup_collectField]
  exact if_neg h

/-- Fields that do not write a key leave what the map has for it. -/
theorem lookup_collectEnvValues_of_not_writes (environ : StrMap) (fields : List Field)
    (k : Str) (m : StrMap) (h : ∀ g ∈ fields, ¬ writesKey environ g k) :
    (collectEnvValues environ fields m).lookup k = m.lookup k := by
  induction fields generalizing m with
  | nil => rfl
  | cons f fs ih =>
    rw [collectEnvValues, ih _ fun g hg => h g (List.mem_cons_of_mem _ hg),
      lookup_collectField_of_not_writes m (h f (List.mem_cons_self _ _))]

/-- The keys of the map after the first loop: those it had, and those a field wrote. -/
theorem mem_keys_collectEnvValues (environ : StrMap) (fields : List Field) (k : Str)
    (m : StrMap) :
    k ∈ (collectEnvValues environ fields m).map Prod.fst
      ↔ k ∈ m.map Prod.fst ∨ ∃ g ∈ fields, writesKey environ g k := by
  induction fields generalizing m with
  | nil => simp [collectEnvValues]
  | cons f fs ih =>
    rw [collectEnvValues, ih]
    have hone : k ∈ (collectField environ m f).map Prod.fst
        ↔ k ∈ m.map Prod.fst ∨ writesKey environ f k := by
      rw [← lookup_isSome_iff_mem_keys, ← lookup_isSome_iff_mem_keys, lookup_collectField]
      by_cases hw : writesKey environ f k
      · rw [if_pos (show _ ∧ _ ∧ _ from hw)]
        simp [hw]
      · rw [if_neg (show ¬ (_ ∧ _ ∧ _) from hw)]
        simp [hw]
    rw [hone]
    constructor
    · rintro ((h | h) | ⟨g, hg, hw⟩)
      · exact Or.inl h
      · exact Or.inr ⟨f, List.mem_cons_self _ _, h⟩
      · exact Or.inr ⟨g, List.mem_cons_of_mem _ hg, hw⟩
    · rintro (h | ⟨g, hg, hw⟩)
      · exact Or.inl (Or.inl h)
      · rcases List.mem_cons.mp hg with hg | hg
        · subst hg
          exact Or.inl (Or.inr hw)
        · exact Or.inr ⟨g, hg, hw⟩

/-- Two maps are the same to a lookup. -/
theorem collectField_congr (environ : StrMap) (f : Field) {m m2 : StrMap}
    (h : ∀ k, m.lookup k = m2.lookup k) (k : Str) :
    (collectField environ m f).lookup k = (collectField environ m2 f).lookup k := by
  rw [lookup_collectField, lookup_collectField, h k]

theorem collectEnvValues_congr (environ : StrMap) (fields : List Field) {m m2 : StrMap}
    (h : ∀ k, m.lookup k = m2.lookup k) (k : Str) :
    (collectEnvValues environ fields m).lookup k
      = (collectEnvValues environ fields m2).lookup k := by
  induction fields generalizing m m2 k with
  | nil => exact h k
  | cons f fs ih => exact ih (collectField_congr environ f h) k

/-- Two fields whose keys do not clash can be recorded in either order. -/
theorem collectField_swap (environ : StrMap) (m : StrMap) (A B : Field)
    (hname : A.type.Name ≠ B.type.Name) (hAB : A.type.Name ≠ getEnvName B.type)
    (hBA : B.type.Name ≠ getEnvName A.type) (k : Str) :
    (collectField environ (collectField environ m A) B).lookup k
      = (collectField environ (collectField environ m B) A).lookup k := by
  simp only [lookup_collectField]
  by_cases hA : A.CanSet = true ∧ Getenv environ (getEnvName A.type) ≠ [] ∧
      (k = getEnvName A.type ∨ k = A.type.Name)
  · by_cases hB : B.CanSet = true ∧ Getenv environ (getEnvName B.type) ≠ [] ∧
        (k = getEnvName B.type ∨ k = B.type.Name)
    · simp only [if_pos hA, if_pos hB]
      rcases hA.2.2 with ha | ha <;> rcases hB.2.2 with hb | hb
      · rw [← ha, ← hb]
      · exact absurd (hb.symm.trans ha) hBA
      · exact absurd (ha.symm.trans hb) hAB
      · exact absurd (ha.symm.trans hb) hname
    · simp only [if_pos hA, if_neg hB]
  · by_cases hB : B.CanSet = true ∧ Getenv environ (getEnvName B.type) ≠ [] ∧
        (k = getEnvName B.type ∨ k = B.type.Name)
    · simp only [if_neg hA, if_pos hB]
    · simp only [if_neg hA, if_neg hB]

/-! ### The second loop and the map -/

theorem replaceMatch_congr {m m2 : StrMap} (h : ∀ k, m.lookup k = m2.lookup k) :
    replaceMatch m = replaceMatch m2 := by
  funext x
  simp only [replaceMatch, h]

theorem interpolateValue_congr {m m2 : StrMap} (h : ∀ k, m.lookup k = m2.lookup k)
    (value : Str) : interpolateValue value m = interpolateValue value m2 := by
  simp only [interpolateValue, replaceMatch_congr h]

theorem assignField_congr (environ : StrMap) (options : LoadOptions) {m m2 : StrMap}
    (h : ∀ k, m.lookup k = m2.lookup k) (f : Field) :
    assignField environ options m f = assignField environ options m2 f := by
  simp only [assignField, interpolateValue_congr h]

theorem assignFields_congr (environ : StrMap) (options : LoadOptions) {m m2 : StrMap}
    (h : ∀ k, m.lookup k = m2.lookup k) (fields : List Field) :
    assignFields environ options m fields = assignFields environ options m2 fields := by
  induction fields with
  | nil => rfl
  | cons f fs ih => simp only [assignFields, assignField_congr environ options h f, ih]

/-- An iteration of the second loop keeps the description of the field. -/
theorem assignField_type {environ : StrMap} {options : LoadOptions} {envValues : StrMap}
    {f g : Field} (h : assignField environ options envValues f = Except.ok g) :
    g.type = f.type := by
  unfold assignField at h
  dsimp only at h
  split at h
  · cases h; rfl
  · split at h
    · cases h
    · split at h
      · split at h
        · cases h
        · split at h
          · cases h
          · cases h; rfl
      · cases h; rfl

/-- A field the second loop passes over can be taken out of the struct: the loop does to the
other fields what it does without it, and leaves the field as it is. -/
theorem assignFields_skip {environ : StrMap} {options : LoadOptions} {envValues : StrMap}
    {f : Field} (pre post : List Field)
    (h : assignField environ options envValues f = Except.ok f) :
    assignFields environ options envValues (pre ++ f :: post)
      = ((assignFields environ options envValues (pre ++ post)).1.take pre.length
            ++ f :: (assignFields environ options envValues (pre ++ post)).1.drop pre.length,
          (assignFields environ options envValues (pre ++ post)).2) := by
  induction pre with
  | nil =>
    rw [List.nil_append, assignFields_cons_ok post h]
    rfl
  | cons g gs ih =>
    cases hg : assignField environ options envValues g with
    | error err =>
      rw [List.cons_append, assignFields_cons_error _ hg, List.cons_append,
        assignFields_cons_error _ hg]
      simp
    | ok g2 =>
      rw [List.cons_append, assignFields_cons_ok _ hg, List.cons_append,
        assignFields_cons_ok _ hg, ih]
      simp

/-- When the loop runs through a list without returning, it runs through every front part
of it without returning. -/
theorem assignFields_prefix_ok {environ : StrMap} {options : LoadOptions} {envValues : StrMap}
    (pre rest : List Field)
    (h : (assignFields environ options envValues (pre ++ rest)).2 = none) :
    (assignFields environ options envValues pre).2 = none := by
  induction pre with
  | nil => rfl
  | cons f fs ih =>
    cases hf : assignField environ options envValues f with
    | error err =>
      rw [List.cons_append, assignFields_cons_error _ hf] at h
      simp at h
    | ok g =>
      rw [List.cons_append, assignFields_cons_ok _ hf] at h
      rw [assignFields_cons_ok _ hf]
      exact ih h

/-- When the loop runs through a list without returning, the iteration for the first field
returned no error and the loop runs through the others without returning. -/
theorem assignFields_cons_ok_inv {environ : StrMap} {options : LoadOptions}
    {envValues : StrMap} {f : Field} {rest : List Field}
    (h : (assignFields environ options envValues (f :: rest)).2 = none) :
    ∃ g, assignField environ options envValues f = Except.ok g ∧
      (assignFields environ options envValues rest).2 = none := by
  cases hf : assignField environ options envValues f with
  | error err =>
    rw [assignFields_cons_error _ hf] at h
    simp at h
  | ok g =>
    rw [assignFields_cons_ok _ hf] at h
    exact ⟨g, rfl, h⟩

theorem isFieldRequired_of_omitempty {field : StructField} (d : Bool)
    (hnoreq : containsStr field.validateTag "required".toList = false)
    (homit : containsStr field.validateTag "omitempty".toList = true) :
    isFieldRequired field d = false := by
  have hne : field.validateTag ≠ [] := by
    intro hnil
    rw [hnil] at homit
    exact absurd homit (by decide)
  simp only [isFieldRequired, if_neg hne, hnoreq, homit, if_true, Bool.false_eq_true, if_false]

/-- A field that is not required and whose variable is empty can be taken out of the struct:
`processStruct` returns what it returns without the field, and leaves the field as it is. -/
theorem processStruct_without_field {environ : StrMap} {options : LoadOptions} {f : Field}
    (pre post : List Field)
    (hreq : isFieldRequired f.type options.RequiredByDefault = false)
    (hempty : Getenv environ (getEnvName f.type) = []) (fields : List Field)
    (err : Option Err)
    (h : processStruct (Target.structPtr (pre ++ post)) options environ
      = (Target.structPtr fields, err)) :
    processStruct (Target.structPtr (pre ++ f :: post)) options environ
      = (Target.structPtr (fields.take pre.length ++ f :: fields.drop pre.length), err) := by
  have hmap : collectEnvValues environ (pre ++ f :: post) []
      = collectEnvValues environ (pre ++ post) [] := by
    rw [collectEnvValues_append, collectEnvValues_append, collectEnvValues,
      collectField_of_empty _ hempty]
  simp only [processStruct, Prod.mk.injEq, Target.structPtr.injEq] at h
  simp only [processStruct, hmap]
  rw [assignFields_skip pre post (assignField_skip _ hreq hempty), h.1, h.2]

/-- C8, as stated, fails: a single field tagged `validate:"required_without=DB_TOKEN,
omitempty,url"` contains `omitempty`, its variable is empty, and `Load` fails. -/
theorem Load_optional_empty_counterexample :
    containsStr "required_without=DB_TOKEN,omitempty,url".toList "omitempty".toList = true ∧
      "omitempty".toList ∈ tagTokens "required_without=DB_TOKEN,omitempty,url".toList ∧
      (Load acceptAll
        (Target.structPtr [stringField "DATABASE_URL".toList "DB_URL".toList
          "required_without=DB_TOKEN,omitempty,url".toList])
        [] (noFiles [])).err = some (Err.missingRequired "DB_URL".toList) := by
  decide

/-- C8, amended. Let `f` be a field whose `validate` tag contains `omitempty` and does not
contain `required`, and whose variable is empty, and let reading the env file not fail.  Then
`processStruct` returns what it returns for the struct without `f`, with `f` left as it was
(at its zero value in a freshly zeroed struct): the field is never assigned.  So when
`processStruct` returns no error for the other fields and the validator finds nothing, `Load`
returns no error. -/
theorem Load_optional_empty (validateStruct : List Field → List FieldError)
    (pre post : List Field) (f : Field) (opts : List LoadOptions) (w : World)
    (environ : StrMap)
    (hfile : loadEnvFile (resolveOptions opts) w = Except.ok environ)
    (homit : containsStr f.type.validateTag "omitempty".toList = true)
    (hnoreq : containsStr f.type.validateTag "required".toList = false)
    (hempty : Getenv environ (getEnvName f.type) = []) :
    (∀ fields err,
        processStruct (Target.structPtr (pre ++ post)) (resolveOptions opts) environ
          = (Target.structPtr fields, err) →
        processStruct (Target.structPtr (pre ++ f :: post)) (resolveOptions opts) environ
          = (Target.structPtr (fields.take pre.length ++ f :: fields.drop pre.length), err)) ∧
      (∀ fields,
        processStruct (Target.structPtr (pre ++ post)) (resolveOptions opts) environ
          = (Target.structPtr fields, none) →
        validateStruct (fields.take pre.length ++ f :: fields.drop pre.length) = [] →
        Load validateStruct (Target.structPtr (pre ++ f :: post)) opts w
          = { environ := environ,
              target := Target.structPtr
                (fields.take pre.length ++ f :: fields.drop pre.length),
              err := none }) := by
  have hreq := isFieldRequired_of_omitempty (resolveOptions opts).RequiredByDefault hnoreq homit
  refine ⟨fun fields err h => processStruct_without_field pre post hreq hempty fields err h, ?_⟩
  intro fields h hvalid
  exact Load_of_processStruct_ok hfile
    (processStruct_without_field pre post hreq hempty fields none h) hvalid

/-- C8 amended, at the struct `Env` with `DB_URL` unset and the other three variables set:
`Load` returns no error, and `DATABASE_URL` is still empty. -/
theorem Load_optional_empty_witness :
    Load acceptAll Env []
        (noFiles [("DB_TOKEN".toList, "t".toList), ("DB_NAME".toList, "n".toList),
          ("DB_TURSO_USER".toList, "u".toList)])
      = { environ := [("DB_TOKEN".toList, "t".toList), ("DB_NAME".toList, "n".toList),
            ("DB_TURSO_USER".toList, "u".toList)],
          target := Target.structPtr [
            stringField "DATABASE_URL".toList "DB_URL".toList "omitempty,url".toList,
            { stringField "DB_TOKEN".toList [] [] with value := Value.String "t".toList },
            { stringField "DB_NAME".toList [] [] with value := Value.String "n".toList },
            { stringField "DB_TURSO_USER".toList [] [] with value := Value.String "u".toList }],
          err := none } :=
  (Load_optional_empty acceptAll []
    [stringField "DB_TOKEN".toList [] [], stringField "DB_NAME".toList [] [],
      stringField "DB_TURSO_USER".toList [] []]
    (stringField "DATABASE_URL".toList "DB_URL".toList "omitempty,url".toList) []
    (noFiles [("DB_TOKEN".toList, "t".toList), ("DB_NAME".toList, "n".toList),
      ("DB_TURSO_USER".toList, "u".toList)])
    [("DB_TOKEN".toList, "t".toList), ("DB_NAME".toList, "n".toList),
      ("DB_TURSO_USER".toList, "u".toList)]
    (by decide) (by decide) (by decide) (by decide)).2
    [{ stringField "DB_TOKEN".toList [] [] with value := Value.String "t".toList },
      { stringField "DB_NAME".toList [] [] with value := Value.String "n".toList },
      { stringField "DB_TURSO_USER".toList [] [] with value := Value.String "u".toList }]
    (by decide) (by decide)

/-- C9, as stated, fails: let `A` be the field `X` with `env:"KA"` and `B` the field `Y`
with `env:"X"`, with `KA=[{X}]` and `X=hello`.  Declared `A`, `B`, both fields are assigned
`hello`; declared `B`, `A`, the key `X` holds the raw value of `A` and `processStruct` fails
on `A`. -/
theorem processStruct_order_counterexample :
    processStruct
        (Target.structPtr [stringField "X".toList "KA".toList [],
          stringField "Y".toList "X".toList []])
        { EnvFile := [], RequiredByDefault := true }
        [("KA".toList, "[\x7bX\x7d]".toList), ("X".toList, "hello".toList)]
      = (Target.structPtr [
          { stringField "X".toList "KA".toList [] with value := Value.String "hello".toList },
          { stringField "Y".toList "X".toList [] with value := Value.String "hello".toList }],
        none) ∧
      processStruct
        (Target.structPtr [stringField "Y".toList "X".toList [],
          stringField "X".toList "KA".toList []])
        { EnvFile := [], RequiredByDefault := true }
        [("KA".toList, "[\x7bX\x7d]".toList), ("X".toList, "hello".toList)]
      = (Target.structPtr [
          { stringField "Y".toList "X".toList [] with value := Value.String "hello".toList },
          stringField "X".toList "KA".toList []],
        some (Err.interpolation "KA".toList (Err.unresolved ["X".toList]))) := by
  decide

theorem keysApart_symm {f g : Field} (h : keysApart f g) : keysApart g f :=
  ⟨Ne.symm h.1, h.2.2, h.2.1⟩

/-- In a struct whose fields' keys do not clash, the first loop builds the same map, to a
lookup, in whatever order the fields are declared. -/
theorem collectEnvValues_perm (environ : StrMap) {l l2 : List Field} (hperm : l.Perm l2) :
    l.Pairwise keysApart → ∀ m m2 : StrMap, (∀ k, m.lookup k = m2.lookup k) →
      ∀ k, (collectEnvValues environ l m).lookup k
        = (collectEnvValues environ l2 m2).lookup k := by
  induction hperm with
  | nil =>
    intro _ m m2 h k
    exact h k
  | cons x _ ih =>
    intro hp m m2 h k
    exact ih (List.pairwise_cons.mp hp).2 _ _ (collectField_congr environ x h) k
  | swap x y l =>
    intro hp m m2 h k
    have hyx : keysApart y x := (List.pairwise_cons.mp hp).1 x (List.mem_cons_self _ _)
    refine collectEnvValues_congr environ l ?_ k
    intro key
    rw [collectField_swap environ m y x hyx.1 hyx.2.1 hyx.2.2 key]
    exact collectField_congr environ y (collectField_congr environ x h) key
  | trans h1 _ ih1 ih2 =>
    intro hp m m2 h k
    have hp2 := (List.Perm.pairwise_iff (fun hxy => keysApart_symm hxy) h1).mp hp
    exact (ih1 hp m m (fun _ => rfl) k).trans (ih2 hp2 m m2 h k)

/-- When the second loop runs through a list without returning, no iteration returned an
error. -/
theorem assignFields_ok_forall {environ : StrMap} {options : LoadOptions}
    {envValues : StrMap} {fields : List Field}
    (h : (assignFields environ options envValues fields).2 = none) :
    ∀ f ∈ fields, ∃ g, assignField environ options envValues f = Except.ok g := by
  induction fields with
  | nil => intro f hf; cases hf
  | cons x xs ih =>
    obtain ⟨g, hg, hrest⟩ := assignFields_cons_ok_inv h
    intro f hf
    rcases List.mem_cons.mp hf with hf | hf
    · subst hf
      exact ⟨g, hg⟩
    · exact ih hrest f hf

/-- When no iteration returns an error, the second loop assigns every field and returns no
error. -/
theorem assignFields_eq_map {environ : StrMap} {options : LoadOptions} {envValues : StrMap}
    {fields : List Field}
    (h : ∀ f ∈ fields, ∃ g, assignField environ options envValues f = Except.ok g) :
    assignFields environ options envValues fields
      = (fields.map (assignedField environ options envValues), none) := by
  induction fields with
  | nil => rfl
  | cons x xs ih =>
    obtain ⟨g, hg⟩ := h x (List.mem_cons_self _ _)
    rw [assignFields_cons_ok _ hg, ih fun f hf => h f (List.mem_cons_of_mem _ hf)]
    simp only [List.map_cons, assignedField, hg]

/-- C9, amended. In a struct where no two fields have the same name and no field's name is
another field's environment key, interpolation is independent of the declaration order: when
`processStruct` returns no error for the fields in one order, it returns no error for them in
any other order, and every field is assigned the same value in both, the one the second loop
gives it from the map of the first order. -/
theorem processStruct_order (fields reordered : List Field) (options : LoadOptions)
    (environ : StrMap) (hperm : reordered.Perm fields) (hkeys : fields.Pairwise keysApart)
    (hok : (processStruct (Target.structPtr fields) options environ).2 = none) :
    processStruct (Target.structPtr fields) options environ
        = (Target.structPtr (fields.map
            (assignedField environ options (collectEnvValues environ fields []))), none) ∧
      processStruct (Target.structPtr reordered) options environ
        = (Target.structPtr (reordered.map
            (assignedField environ options (collectEnvValues environ fields []))), none) := by
  have hall := assignFields_ok_forall (show (assignFields environ options
    (collectEnvValues environ fields []) fields).2 = none from hok)
  have hmap : ∀ k, (collectEnvValues environ reordered []).lookup k
      = (collectEnvValues environ fields []).lookup k :=
    fun k => (collectEnvValues_perm environ hperm.symm hkeys [] [] (fun _ => rfl) k).symm
  constructor
  · simp only [processStruct]
    rw [assignFields_eq_map hall]
  · simp only [processStruct]
    rw [assignFields_congr environ options hmap,
      assignFields_eq_map fun f hf => hall f (hperm.mem_iff.mp hf)]

/-- C9 amended, at two fields `A` and `B` with `A=[{B}-x]` and `B=b`: `A` is assigned `b-x`
and `B` is assigned `b`, with `A` declared first and with `B` declared first. -/
theorem processStruct_order_witness :
    processStruct (Target.structPtr [stringField "A".toList [] [], stringField "B".toList [] []])
        { EnvFile := [], RequiredByDefault := true }
        [("A".toList, "[\x7bB\x7d-x]".toList), ("B".toList, "b".toList)]
      = (Target.structPtr [
          { stringField "A".toList [] [] with value := Value.String "b-x".toList },
          { stringField "B".toList [] [] with value := Value.String "b".toList }], none) ∧
      processStruct (Target.structPtr [stringField "B".toList [] [], stringField "A".toList [] []])
        { EnvFile := [], RequiredByDefault := true }
        [("A".toList, "[\x7bB\x7d-x]".toList), ("B".toList, "b".toList)]
      = (Target.structPtr [
          { stringField "B".toList [] [] with value := Value.String "b".toList },
          { stringField "A".toList [] [] with value := Value.String "b-x".toList }], none) :=
  processStruct_order [stringField "A".toList [] [], stringField "B".toList [] []]
    [stringField "B".toList [] [], stringField "A".toList [] []]
    { EnvFile := [], RequiredByDefault := true }
    [("A".toList, "[\x7bB\x7d-x]".toList), ("B".toList, "b".toList)]
    (List.Perm.swap _ _ _) (by decide) (by decide)

/-- C10, as stated, fails: let `F` be the field `Y` with `env:"X"` and `G`, declared after
it, the field `X` with `env:"KA"`, with `X=hello` and `KA=other`.  After the first loop the key
`X`, the environment key of `F`, holds `other`, the value of `G`. -/
theorem collectEnvValues_counterexample :
    (stringField "Y".toList "X".toList []).CanSet = true ∧
      getEnvName (stringField "Y".toList "X".toList []).type = "X".toList ∧
      Getenv [("KA".toList, "other".toList), ("X".toList, "hello".toList)] "X".toList
        = "hello".toList ∧
      (collectEnvValues [("KA".toList, "other".toList), ("X".toList, "hello".toList)]
        [stringField "Y".toList "X".toList [], stringField "X".toList "KA".toList []]
        []).lookup "X".toList = some "other".toList := by
  decide

/-- Later fields that write a key with the value it already has leave that value. -/
theorem lookup_collectEnvValues_of_agree (environ : StrMap) (fields : List Field) (k v : Str)
    (m : StrMap) (hm : m.lookup k = some v)
    (h : ∀ g ∈ fields, writesKey environ g k → Getenv environ (getEnvName g.type) = v) :
    (collectEnvValues environ fields m).lookup k = some v := by
  induction fields generalizing m with
  | nil => exact hm
  | cons f fs ih =>
    rw [collectEnvValues]
    apply ih _ _ fun g hg => h g (List.mem_cons_of_mem _ hg)
    by_cases hw : writesKey environ f k
    · rw [lookup_collectField_of_writes m hw, h f (List.mem_cons_self _ _) hw]
    · rw [lookup_collectField_of_not_writes m hw, hm]

/-- C10, amended. After the first loop of `processStruct`, a key that is the environment key
or the name of a settable field with a non-empty variable holds that field's raw value,
provided every field declared later that is settable, has a non-empty variable and has the key
as its environment key or name has the same raw value (the later write wins); so it does when
no later field has that key.  The keys of the map are exactly the environment keys and names of
the settable fields with a non-empty variable, and a field whose variable is empty adds
nothing to the map. -/
theorem collectEnvValues_records (environ : StrMap) (pre post : List Field) (f : Field)
    (k : Str) (hset : f.CanSet = true) (hne : Getenv environ (getEnvName f.type) ≠ [])
    (hk : k = getEnvName f.type ∨ k = f.type.Name)
    (hlater : ∀ g ∈ post, g.CanSet = true → Getenv environ (getEnvName g.type) ≠ [] →
      k = getEnvName g.type ∨ k = g.type.Name →
      Getenv environ (getEnvName g.type) = Getenv environ (getEnvName f.type)) :
    (collectEnvValues environ (pre ++ f :: post) []).lookup k
        = some (Getenv environ (getEnvName f.type)) ∧
      (∀ key, key ∈ (collectEnvValues environ (pre ++ f :: post) []).map Prod.fst ↔
        ∃ g ∈ pre ++ f :: post, g.CanSet = true ∧ Getenv environ (getEnvName g.type) ≠ [] ∧
          (key = getEnvName g.type ∨ key = g.type.Name)) ∧
      (∀ (m : StrMap) (g : Field), Getenv environ (getEnvName g.type) = [] →
        collectField environ m g = m) := by
  refine ⟨?_, ?_, fun m g hg => collectField_of_empty m hg⟩
  · rw [collectEnvValues_append, collectEnvValues]
    exact lookup_collectEnvValues_of_agree environ post k _ _
      (lookup_collectField_of_writes _ ⟨hset, hne, hk⟩)
      fun g hg hw => hlater g hg hw.1 hw.2.1 hw.2.2
  · intro key
    rw [mem_keys_collectEnvValues]
    simp [writesKey]

/-- C10 amended, at the struct `Env` with `DB_URL=u` and `DB_NAME=n`: the keys `DB_URL` and
`DATABASE_URL` both hold `u`. -/
theorem collectEnvValues_records_witness :
    ((collectEnvValues [("DB_URL".toList, "u".toList), ("DB_NAME".toList, "n".toList)]
        ([] ++ stringField "DATABASE_URL".toList "DB_URL".toList "omitempty,url".toList ::
          [stringField "DB_TOKEN".toList [] [], stringField "DB_NAME".toList [] [],
            stringField "DB_TURSO_USER".toList [] []]) []).lookup "DATABASE_URL".toList
      = some "u".toList) ∧
    ((collectEnvValues [("DB_URL".toList, "u".toList), ("DB_NAME".toList, "n".toList)]
        ([] ++ stringField "DATABASE_URL".toList "DB_URL".toList "omitempty,url".toList ::
          [stringField "DB_TOKEN".toList [] [], stringField "DB_NAME".toList [] [],
            stringField "DB_TURSO_USER".toList [] []]) []).lookup "DB_URL".toList
      = some "u".toList) :=
  ⟨(collectEnvValues_records [("DB_URL".toList, "u".toList), ("DB_NAME".toList, "n".toList)]
      [] [stringField "DB_TOKEN".toList [] [], stringField "DB_NAME".toList [] [],
        stringField "DB_TURSO_USER".toList [] []]
      (stringField "DATABASE_URL".toList "DB_URL".toList "omitempty,url".toList)
      "DATABASE_URL".toList (by decide) (by decide) (by decide) (by decide)).1,
    (collectEnvValues_records [("DB_URL".toList, "u".toList), ("DB_NAME".toList, "n".toList)]
      [] [stringField "DB_TOKEN".toList [] [], stringField "DB_NAME".toList [] [],
        stringField "DB_TURSO_USER".toList [] []]
      (stringField "DATABASE_URL".toList "DB_URL".toList "omitempty,url".toList)
      "DB_URL".toList (by decide) (by decide) (by decide) (by decide)).1⟩

/-! ### Templates without placeholders, and the re-scan -/

theorem render_append (a b : List Seg) : render (a ++ b) = render a ++ render b := by
  induction a with
  | nil => rfl
  | cons x xs ih =>
    cases x with
    | lit c => simp [render, ih]
    | hole n => simp [render, ih]

/-- Pieces with no match among them are replaced by themselves. -/
theorem replaceSegs_of_no_holes (envValues : StrMap) (segs : List Seg)
    (h : holeNames segs = []) : replaceSegs envValues segs = render segs := by
  induction segs with
  | nil => rfl
  | cons x xs ih =>
    cases x with
    | lit c =>
      have h2 : holeNames xs = [] := by simpa [holeNames] using h
      rw [replaceSegs_lit, render, ih h2]
    | hole n => simp [holeNames] at h

theorem matchString_eq_false_iff (s : Str) : MatchString s = false ↔ placeholders s = [] := by
  constructor
  · intro h
    cases hp : placeholders s with
    | nil => rfl
    | cons n ns =>
      have hn : n ∈ placeholders s := by rw [hp]; exact List.mem_cons_self _ _
      have := matchString_eq_true.mpr ⟨n, mem_placeholders.mp hn⟩
      rw [h] at this
      cases this
  · intro h
    cases hm : MatchString s with
    | false => rfl
    | true =>
      obtain ⟨n, hn⟩ := matchString_eq_true.mp hm
      have := mem_placeholders.mpr hn
      rw [h] at this
      cases this

/-- A text with a match holds a well-formed placeholder. -/
theorem infix_of_matchString {s : Str} (h : MatchString s = true) :
    ∃ pre name post, s = pre ++ matchText name ++ post ∧ name ≠ [] ∧ '}' ∉ name := by
  obtain ⟨name, hn⟩ := matchString_eq_true.mp h
  obtain ⟨a, b, hab⟩ := List.append_of_mem hn
  refine ⟨render a, name, render b, ?_, hole_of_mem_segments hn⟩
  have := render_segments s
  rw [hab, render_append, render] at this
  rw [← this]
  simp

/-- C16. On a bracketed value whose template has no placeholder, `interpolateValue` returns
without error exactly the template, which is the value without its first and its last
character, whatever the map holds; on `[]` it returns the empty string. -/
theorem interpolateValue_no_placeholder (template : Str) (envValues : StrMap)
    (h : placeholders template = []) :
    interpolateValue (bracket template) envValues = Except.ok template ∧
      template = (bracket template).tail.dropLast ∧
      interpolateValue ['[', ']'] envValues = Except.ok [] := by
  have hres : ReplaceAllStringFunc template (replaceMatch envValues) = template := by
    rw [replaceAll_eq_replaceSegs, replaceSegs_of_no_holes envValues _ h, render_segments]
  refine ⟨?_, by simp [bracket], ?_⟩
  · rw [interpolateValue_bracket, hres, (matchString_eq_false_iff template).mpr h]
    rfl
  · rfl

/-- C16, at the value `[plain text]` with `FOO=bar`: the result is `plain text`. -/
theorem interpolateValue_no_placeholder_witness :
    interpolateValue "[plain text]".toList [("FOO".toList, "bar".toList)]
      = Except.ok "plain text".toList :=
  (interpolateValue_no_placeholder "plain text".toList [("FOO".toList, "bar".toList)]
    (by decide)).1

/-- C18. On a bracketed value `interpolateValue` fails exactly when the text obtained after
substitution holds a match of the expression.  So it can fail although every placeholder
identifier of the template is a key of the map: the template `{A}` with `A` set to `{x}`
fails because of the value, and the template `{A}y}` with `A` set to `{x` fails because of
the value followed by the literal text. -/
theorem interpolateValue_fails_iff_rescan (template : Str) (envValues : StrMap) :
    ((∃ err, interpolateValue (bracket template) envValues = Except.error err) ↔
        MatchString (ReplaceAllStringFunc template (replaceMatch envValues)) = true) ∧
      (∃ (t : Str) (m : StrMap), (∀ id ∈ placeholders t, id ∈ m.map Prod.fst) ∧
        ∃ err, interpolateValue (bracket t) m = Except.error err) ∧
      (∃ (t : Str) (m : StrMap), (∀ id ∈ placeholders t, id ∈ m.map Prod.fst) ∧
        (∀ kv ∈ m, MatchString kv.2 = false) ∧
        ∃ err, interpolateValue (bracket t) m = Except.error err) := by
  refine ⟨?_, ?_, ?_⟩
  · rw [interpolateValue_bracket]
    cases hm : MatchString (ReplaceAllStringFunc template (replaceMatch envValues)) with
    | true => simp
    | false => simp
  · exact ⟨"\x7bA\x7d".toList, [("A".toList, "\x7bx\x7d".toList)], by decide,
      Err.unresolved ["x".toList], by decide⟩
  · exact ⟨"\x7bA\x7dy\x7d".toList, [("A".toList, "\x7bx".toList)], by decide, by decide,
      Err.unresolved ["xy".toList], by decide⟩

/-! ### The slices are in range -/

theorem sliceChecked_bracket (template : Str) :
    sliceChecked (bracket template) 1 (((bracket template).length : Int) - 1)
      = some template := by
  have hlen : (((bracket template).length : Int) - 1) = ((template.length + 1 : Nat) : Int) := by
    simp [bracket]
  rw [hlen]
  unfold sliceChecked
  rw [if_pos]
  · have e : sliceStr (bracket template) (1 : Int).toNat
        (((template.length + 1 : Nat) : Int)).toNat = template := by
      simp [sliceStr, bracket]
    rw [e]
  · refine ⟨by decide, by omega, ?_⟩
    simp [bracket]

theorem sliceChecked_matchText (name : Str) :
    sliceChecked (matchText name) 1 (((matchText name).length : Int) - 1) = some name := by
  have hlen : (((matchText name).length : Int) - 1) = ((name.length + 1 : Nat) : Int) := by
    simp [matchText]
  rw [hlen]
  unfold sliceChecked
  rw [if_pos]
  · have e : sliceStr (matchText name) (1 : Int).toNat
        (((name.length + 1 : Nat) : Int)).toNat = name := by
      simp [sliceStr, matchText]
    rw [e]
  · refine ⟨by decide, by omega, ?_⟩
    simp [matchText]

theorem replaceMatchChecked_matchText (envValues : StrMap) (name : Str) :
    replaceMatchChecked envValues (matchText name)
      = some (replaceMatch envValues (matchText name)) := by
  rw [replaceMatch_matchText]
  unfold replaceMatchChecked
  rw [sliceChecked_matchText]
  simp only
  cases hl : envValues.lookup name <;> rfl

/-- No call of the function literal panics, so the checked replacement builds the text of
the replacement. -/
theorem replaceSegsChecked_eq (envValues : StrMap) (segs : List Seg) :
    replaceSegsChecked (replaceMatchChecked envValues) segs
      = some (replaceSegs envValues segs) := by
  induction segs with
  | nil => rfl
  | cons x xs ih =>
    cases x with
    | lit c => rw [replaceSegsChecked, ih, replaceSegs_lit]
    | hole n =>
      rw [replaceSegsChecked, replaceMatchChecked_matchText, ih, replaceSegs_hole,
        replaceMatch_matchText]

theorem interpolateValueChecked_eq (value : Str) (envValues : StrMap) :
    interpolateValueChecked value envValues = some (interpolateValue value envValues) := by
  by_cases hw : (hasPrefixStr value ['['] && hasSuffixStr value [']']) = true
  · have hw2 := hw
    rw [Bool.and_eq_true] at hw2
    unfold hasPrefixStr hasSuffixStr at hw2
    rw [List.isPrefixOf_iff_prefix, List.isSuffixOf_iff_suffix] at hw2
    obtain ⟨template, ht⟩ := bracket_of_wrapped hw2.1 hw2.2
    subst ht
    rw [interpolateValue_bracket, replaceAll_eq_replaceSegs]
    unfold interpolateValueChecked
    rw [if_pos hw, sliceChecked_bracket]
    simp only [replaceSegsChecked_eq]
    split <;> rfl
  · unfold interpolateValueChecked interpolateValue
    rw [if_neg hw, if_neg hw]

/-- C20. The slices of `interpolateValue` are in range.  A value that starts with `[` and
ends with `]` has at least two characters, and `value[1:len(value)-1]` is the template
between them, empty only for `[]`.  A match of the expression has at least three characters,
and `match[1:len(match)-1]` is its capture group, which is not empty.  So with the bounds
checks written out the function panics for no value and no map: it returns what
`interpolateValue` returns. -/
theorem interpolateValue_slices_in_range :
    (∀ value : Str, ['['] <+: value → [']'] <:+ value →
        2 ≤ value.length ∧
        ∃ template, sliceChecked value 1 ((value.length : Int) - 1) = some template ∧
          value = bracket template ∧ (template = [] ↔ value = ['[', ']'])) ∧
      (∀ (s name : Str), Seg.hole name ∈ segments s →
        3 ≤ (matchText name).length ∧
        sliceChecked (matchText name) 1 (((matchText name).length : Int) - 1) = some name ∧
        name ≠ []) ∧
      (∀ (value : Str) (envValues : StrMap),
        interpolateValueChecked value envValues = some (interpolateValue value envValues)) := by
  refine ⟨?_, ?_, interpolateValueChecked_eq⟩
  · intro value hpre hsuf
    obtain ⟨template, ht⟩ := bracket_of_wrapped hpre hsuf
    subst ht
    refine ⟨by simp [bracket], template, sliceChecked_bracket template, rfl, ?_⟩
    constructor
    · intro h
      rw [h]
      rfl
    · intro h
      have := congrArg List.length h
      simp only [bracket, List.length_cons, List.length_append, List.length_singleton,
        List.length_nil] at this
      exact List.length_eq_zero.mp (by omega)
  · intro s name h
    have hne := (hole_of_mem_segments h).1
    refine ⟨?_, sliceChecked_matchText name, hne⟩
    have : 0 < name.length := List.length_pos.mpr hne
    simp only [matchText, List.length_cons, List.length_append, List.length_singleton]
    omega

/-! ### The iterations of the second loop, case by case -/

/-- A failure of `interpolateValue` is the unresolved-interpolation error. -/
theorem interpolateValue_error_unresolved {value : Str} {envValues : StrMap} {err : Err}
    (h : interpolateValue value envValues = Except.error err) :
    ∃ names, err = Err.unresolved names := by
  unfold interpolateValue at h
  split at h
  · dsimp only at h
    split at h
    · simp only [Except.error.injEq] at h
      exact ⟨_, h.symm⟩
    · cases h
  · cases h

/-- The value `setFieldValue` gives is the string it was given, and the kind is string. -/
theorem setFieldValue_ok {f : Field} {value : Str} {v : Value}
    (h : setFieldValue f value = Except.ok v) :
    f.type.Kind = Kind.String ∧ v = Value.String value := by
  unfold setFieldValue at h
  split at h
  · simp only [Except.ok.injEq] at h
    exact ⟨by assumption, h.symm⟩
  all_goals cases h

theorem setFieldValue_of_string {f : Field} (value : Str) (h : f.type.Kind = Kind.String) :
    setFieldValue f value = Except.ok (Value.String value) := by
  simp [setFieldValue, h]

/-- On a kind other than string `setFieldValue` returns one of its three errors. -/
theorem setFieldValue_of_not_string {f : Field} (value : Str) (h : f.type.Kind ≠ Kind.String) :
    ∃ err, setFieldValue f value = Except.error err ∧
      (err = Err.intNotImplemented ∨ err = Err.boolNotImplemented ∨
        err = Err.unsupportedKind f.type.Kind.name) := by
  unfold setFieldValue
  cases hk : f.type.Kind with
  | String => exact absurd hk h
  | Int => exact ⟨_, rfl, Or.inl rfl⟩
  | Int8 => exact ⟨_, rfl, Or.inl rfl⟩
  | Int16 => exact ⟨_, rfl, Or.inl rfl⟩
  | Int32 => exact ⟨_, rfl, Or.inl rfl⟩
  | Int64 => exact ⟨_, rfl, Or.inl rfl⟩
  | Bool => exact ⟨_, rfl, Or.inr (Or.inl rfl)⟩
  | Other name => exact ⟨_, rfl, Or.inr (Or.inr rfl)⟩

/-- The iteration for a settable field whose variable is not empty, by what the
interpolation and the assignment return. -/
theorem assignField_of_nonempty {environ : StrMap} (options : LoadOptions)
    (envValues : StrMap) {f : Field} (hset : f.CanSet = true)
    (hne : Getenv environ (getEnvName f.type) ≠ []) :
    assignField environ options envValues f
      = match interpolateValue (Getenv environ (getEnvName f.type)) envValues with
        | Except.error err => Except.error (Err.interpolation (getEnvName f.type) err)
        | Except.ok processedValue =>
          match setFieldValue f processedValue with
          | Except.error err => Except.error (Err.setField f.type.Name err)
          | Except.ok v => Except.ok { f with value := v } := by
  simp [assignField, hset, hne]

/-- An iteration that returns an error does so for one of three reasons. -/
theorem assignField_error_cases {environ : StrMap} {options : LoadOptions}
    {envValues : StrMap} {f : Field} {err : Err}
    (h : assignField environ options envValues f = Except.error err) :
    f.CanSet = true ∧
      ((Getenv environ (getEnvName f.type) = [] ∧
          isFieldRequired f.type options.RequiredByDefault = true ∧
          err = Err.missingRequired (getEnvName f.type)) ∨
        (Getenv environ (getEnvName f.type) ≠ [] ∧ ∃ names,
          interpolateValue (Getenv environ (getEnvName f.type)) envValues
            = Except.error (Err.unresolved names) ∧
          err = Err.interpolation (getEnvName f.type) (Err.unresolved names)) ∨
        (Getenv environ (getEnvName f.type) ≠ [] ∧ f.type.Kind ≠ Kind.String ∧
          ∃ resolved cause,
            interpolateValue (Getenv environ (getEnvName f.type)) envValues
              = Except.ok resolved ∧
            setFieldValue f resolved = Except.error cause ∧
            err = Err.setField f.type.Name cause)) := by
  by_cases hset : f.CanSet = true
  · refine ⟨hset, ?_⟩
    by_cases hne : Getenv environ (getEnvName f.type) = []
    · by_cases hreq : isFieldRequired f.type options.RequiredByDefault = true
      · rw [assignField_missing envValues hset hreq hne] at h
        simp only [Except.error.injEq] at h
        exact Or.inl ⟨hne, hreq, h.symm⟩
      · rw [assignField_skip envValues (by simpa using hreq) hne] at h
        cases h
    · rw [assignField_of_nonempty options envValues hset hne] at h
      cases hi : interpolateValue (Getenv environ (getEnvName f.type)) envValues with
      | error e =>
        rw [hi] at h
        simp only [Except.error.injEq] at h
        obtain ⟨names, hn⟩ := interpolateValue_error_unresolved hi
        subst hn
        exact Or.inr (Or.inl ⟨hne, names, rfl, h.symm⟩)
      | ok resolved =>
        rw [hi] at h
        simp only at h
        cases hs : setFieldValue f resolved with
        | error cause =>
          rw [hs] at h
          simp only [Except.error.injEq] at h
          refine Or.inr (Or.inr ⟨hne, ?_, resolved, cause, rfl, hs, h.symm⟩)
          intro hk
          rw [setFieldValue_of_string resolved hk] at hs
          cases hs
        | ok v =>
          rw [hs] at h
          cases h
  · have hns : f.CanSet = false := by simpa using hset
    simp [assignField, hns] at h

/-- An iteration that returns no error for a settable field whose variable is not empty has
assigned the field the interpolated value. -/
theorem assignField_ok_of_nonempty {environ : StrMap} {options : LoadOptions}
    {envValues : StrMap} {f g : Field} (hset : f.CanSet = true)
    (hne : Getenv environ (getEnvName f.type) ≠ [])
    (h : assignField environ options envValues f = Except.ok g) :
    ∃ resolved, interpolateValue (Getenv environ (getEnvName f.type)) envValues
        = Except.ok resolved ∧ g = { f with value := Value.String resolved } := by
  rw [assignField_of_nonempty options envValues hset hne] at h
  cases hi : interpolateValue (Getenv environ (getEnvName f.type)) envValues with
  | error e =>
    rw [hi] at h
    cases h
  | ok resolved =>
    rw [hi] at h
    simp only at h
    cases hs : setFieldValue f resolved with
    | error cause =>
      rw [hs] at h
      cases h
    | ok v =>
      rw [hs] at h
      simp only [Except.ok.injEq] at h
      obtain ⟨_, hv⟩ := setFieldValue_ok hs
      subst hv
      exact ⟨resolved, rfl, h.symm⟩

/-- When the second loop returns an error, it is the error of the first field whose
iteration returns one; the fields before it are as their iterations left them, that field and
the fields after it are as they were. -/
theorem assignFields_error_split {environ : StrMap} {options : LoadOptions}
    {envValues : StrMap} {fields : List Field} {err : Err}
    (h : (assignFields environ options envValues fields).2 = some err) :
    ∃ pre f post, fields = pre ++ f :: post ∧
      (∀ g ∈ pre, ∃ g2, assignField environ options envValues g = Except.ok g2) ∧
      assignField environ options envValues f = Except.error err ∧
      (assignFields environ options envValues fields).1
        = pre.map (assignedField environ options envValues) ++ f :: post := by
  induction fields with
  | nil => simp [assignFields] at h
  | cons x xs ih =>
    cases hx : assignField environ options envValues x with
    | error e =>
      rw [assignFields_cons_error _ hx] at h ⊢
      simp only [Option.some.injEq] at h
      subst h
      exact ⟨[], x, xs, rfl, by simp, hx, rfl⟩
    | ok x2 =>
      rw [assignFields_cons_ok _ hx] at h ⊢
      obtain ⟨pre, f, post, hsplit, hpre, hf, hres⟩ := ih h
      refine ⟨x :: pre, f, post, by rw [hsplit]; rfl, ?_, hf, ?_⟩
      · intro g hg
        rcases List.mem_cons.mp hg with hg | hg
        · subst hg
          exact ⟨x2, hx⟩
        · exact hpre g hg
      · simp only [List.map_cons, List.cons_append, hres]
        simp only [assignedField, hx]

/-- A field whose iteration returns an error is left as it was, with the fields after it,
whether the loop stops at it or before it. -/
theorem assignFields_append_error {environ : StrMap} {options : LoadOptions}
    {envValues : StrMap} {f : Field} {err : Err} (pre post : List Field)
    (h : assignField environ options envValues f = Except.error err) :
    ∃ pre2 err2, pre2.length = pre.length ∧
      assignFields environ options envValues (pre ++ f :: post)
        = (pre2 ++ f :: post, some err2) := by
  induction pre with
  | nil => exact ⟨[], err, rfl, assignFields_cons_error post h⟩
  | cons g gs ih =>
    cases hg : assignField environ options envValues g with
    | error e =>
      exact ⟨g :: gs, e, rfl, by rw [List.cons_append, assignFields_cons_error _ hg]⟩
    | ok g2 =>
      obtain ⟨pre2, err2, hlen, hres⟩ := ih
      refine ⟨g2 :: pre2, err2, by simp [hlen], ?_⟩
      rw [List.cons_append, assignFields_cons_ok _ hg, hres]
      rfl

/-- A settable field of a kind other than string whose variable is not empty makes its
iteration return an error. -/
theorem assignField_of_not_string {environ : StrMap} (options : LoadOptions)
    (envValues : StrMap) {f : Field} (hset : f.CanSet = true)
    (hkind : f.type.Kind ≠ Kind.String)
    (hne : Getenv environ (getEnvName f.type) ≠ []) :
    ∃ err, assignField environ options envValues f = Except.error err := by
  rw [assignField_of_nonempty options envValues hset hne]
  cases hi : interpolateValue (Getenv environ (getEnvName f.type)) envValues with
  | error e => exact ⟨_, rfl⟩
  | ok resolved =>
    obtain ⟨cause, hc, _⟩ := setFieldValue_of_not_string resolved hkind
    simp only [hc]
    exact ⟨_, rfl⟩

/-- C12. `setFieldValue` succeeds exactly when the kind of the field is string, and the
field then holds exactly the value given; on every other kind it returns an error (that of
the integer kinds, that of bool, or that of the remaining kinds) and gives no value, so the
string is never coerced.  So a settable field of another kind whose variable is not empty
makes `Load` fail, and the field is then as it was before the call. -/
theorem setFieldValue_string_only (f : Field) (value : Str) :
    (f.type.Kind = Kind.String → setFieldValue f value = Except.ok (Value.String value)) ∧
      (f.type.Kind ≠ Kind.String → ∃ err, setFieldValue f value = Except.error err ∧
        (err = Err.intNotImplemented ∨ err = Err.boolNotImplemented ∨
          err = Err.unsupportedKind f.type.Kind.name)) ∧
      ((∃ v, setFieldValue f value = Except.ok v) ↔ f.type.Kind = Kind.String) ∧
      (∀ (validateStruct : List Field → List FieldError) (pre post : List Field)
          (opts : List LoadOptions) (w : World),
        f.CanSet = true → f.type.Kind ≠ Kind.String →
        (∀ environ, loadEnvFile (resolveOptions opts) w = Except.ok environ →
          Getenv environ (getEnvName f.type) ≠ []) →
        (Load validateStruct (Target.structPtr (pre ++ f :: post)) opts w).err ≠ none ∧
          ∃ pre2, pre2.length = pre.length ∧
            (Load validateStruct (Target.structPtr (pre ++ f :: post)) opts w).target
              = Target.structPtr (pre2 ++ f :: post)) := by
  refine ⟨setFieldValue_of_string value, setFieldValue_of_not_string value, ?_, ?_⟩
  · constructor
    · rintro ⟨v, hv⟩
      exact (setFieldValue_ok hv).1
    · intro hk
      exact ⟨_, setFieldValue_of_string value hk⟩
  · intro validateStruct pre post opts w hset hkind henv
    cases hfile : loadEnvFile (resolveOptions opts) w with
    | error msg =>
      refine ⟨?_, pre, rfl, ?_⟩
      · simp only [Load, hfile]
        simp
      · simp only [Load, hfile]
    | ok environ =>
      obtain ⟨err, herr⟩ := assignField_of_not_string (resolveOptions opts)
        (collectEnvValues environ (pre ++ f :: post) []) hset hkind (henv environ hfile)
      obtain ⟨pre2, err2, hlen, hres⟩ := assignFields_append_error pre post herr
      have hps : processStruct (Target.structPtr (pre ++ f :: post)) (resolveOptions opts)
          environ = (Target.structPtr (pre2 ++ f :: post), some err2) := by
        simp only [processStruct, hres]
      rw [Load_of_processStruct_error hfile hps]
      exact ⟨by simp, pre2, hlen, rfl⟩

/-- C12, at a struct with the string field `NAME` and the int field `PORT`, both variables
set: `Load` fails on `PORT` with the error of the integer kinds, `NAME` having been assigned
and `PORT` left at zero. -/
theorem setFieldValue_string_only_witness :
    Load acceptAll
        (Target.structPtr [stringField "NAME".toList [] [],
          { type := { Name := "PORT".toList, envTag := [], validateTag := [],
                      Kind := Kind.Int, Exported := true },
            value := Value.Int 0 }])
        [] (noFiles [("NAME".toList, "n".toList), ("PORT".toList, "8080".toList)])
      = { environ := [("NAME".toList, "n".toList), ("PORT".toList, "8080".toList)],
          target := Target.structPtr [
            { stringField "NAME".toList [] [] with value := Value.String "n".toList },
            { type := { Name := "PORT".toList, envTag := [], validateTag := [],
                        Kind := Kind.Int, Exported := true },
              value := Value.Int 0 }],
          err := some (Err.setField "PORT".toList Err.intNotImplemented) } ∧
      (Load acceptAll
        (Target.structPtr ([stringField "NAME".toList [] []] ++
          { type := { Name := "PORT".toList, envTag := [], validateTag := [],
                      Kind := Kind.Int, Exported := true },
            value := Value.Int 0 } :: []))
        [] (noFiles [("NAME".toList, "n".toList), ("PORT".toList, "8080".toList)])).err
        ≠ none :=
  ⟨by decide,
    ((setFieldValue_string_only
      { type := { Name := "PORT".toList, envTag := [], validateTag := [],
                  Kind := Kind.Int, Exported := true },
        value := Value.Int 0 } []).2.2.2 acceptAll [stringField "NAME".toList [] []] [] []
      (noFiles [("NAME".toList, "n".toList), ("PORT".toList, "8080".toList)])
      (by decide) (by decide)
      (fun environ h => by
        have he : environ = [("NAME".toList, "n".toList), ("PORT".toList, "8080".toList)] := by
          have h2 : loadEnvFile (resolveOptions [])
              (noFiles [("NAME".toList, "n".toList), ("PORT".toList, "8080".toList)])
              = Except.ok [("NAME".toList, "n".toList), ("PORT".toList, "8080".toList)] := by
            decide
          rw [h2] at h
          simp only [Except.ok.injEq] at h
          exact h.symm
        subst he
        decide)).1⟩

/-! ### formatValidationError -/

/-- Every text that is joined is a piece of the joined text. -/
theorem join_infix_of_mem (sep : Str) {msgs : List Str} {m : Str} (h : m ∈ msgs) :
    m <:+: Join msgs sep := by
  induction msgs with
  | nil => cases h
  | cons a rest ih =>
    cases rest with
    | nil =>
      rcases List.mem_cons.mp h with h | h
      · subst h
        exact List.infix_refl _
      · cases h
    | cons b rest2 =>
      rw [Join]
      rcases List.mem_cons.mp h with h | h
      · subst h
        exact ⟨[], sep ++ Join (b :: rest2) sep, by simp⟩
      · obtain ⟨p, q, hpq⟩ := ih h
        exact ⟨a ++ sep ++ p, q, by rw [← hpq]; simp⟩

/-- C13. `formatValidationError` returns one combined error.  Its message is the heading
followed by the entries joined by a newline and a dash; there is exactly one entry for each
violation, in the order of the list; every entry starts with `campo '`, the field of its
violation and a closing quote; and a violation whose rule is none of `required`, `url`,
`email` gives the generic entry that names the rule.  So the message holds the name of every
field that has a violation. -/
theorem formatValidationError_entries (errs : List FieldError) :
    (∃ msgs, formatValidationError errs = Err.validation msgs ∧
        (formatValidationError errs).Error
          = "erros de validação:\n- ".toList ++ Join msgs "\n- ".toList ∧
        List.Forall₂ (fun (e : FieldError) (m : Str) =>
          ("campo '".toList ++ e.Field ++ "'".toList) <+: m ∧
          (e.Tag ≠ "required".toList → e.Tag ≠ "url".toList → e.Tag ≠ "email".toList →
            m = "campo '".toList ++ e.Field ++ "' falhou na validação '".toList ++ e.Tag
              ++ "'".toList)) errs msgs) ∧
      (∀ e ∈ errs, e.Field <:+: (formatValidationError errs).Error) := by
  have hentry : ∀ e : FieldError, ∃ m,
      (if e.Tag = "required".toList then
          "campo '".toList ++ e.Field ++ "' é obrigatório".toList
        else if e.Tag = "url".toList then
          "campo '".toList ++ e.Field ++ "' deve ser uma URL válida".toList
        else if e.Tag = "email".toList then
          "campo '".toList ++ e.Field ++ "' deve ser um email válido".toList
        else
          "campo '".toList ++ e.Field ++ "' falhou na validação '".toList ++ e.Tag
            ++ "'".toList) = m ∧
      ("campo '".toList ++ e.Field ++ "'".toList) <+: m ∧
      (e.Tag ≠ "required".toList → e.Tag ≠ "url".toList → e.Tag ≠ "email".toList →
        m = "campo '".toList ++ e.Field ++ "' falhou na validação '".toList ++ e.Tag
          ++ "'".toList) := by
    intro e
    refine ⟨_, rfl, ?_, ?_⟩
    · split
      · exact ⟨" é obrigatório".toList, by simp⟩
      · split
        · exact ⟨" deve ser uma URL válida".toList, by simp⟩
        · split
          · exact ⟨" deve ser um email válido".toList, by simp⟩
          · exact ⟨" falhou na validação '".toList ++ e.Tag ++ "'".toList, by simp⟩
    · intro h1 h2 h3
      rw [if_neg h1, if_neg h2, if_neg h3]
  constructor
  · refine ⟨_, rfl, rfl, ?_⟩
    rw [List.forall₂_map_right_iff]
    induction errs with
    | nil => exact List.Forall₂.nil
    | cons e rest ih =>
      obtain ⟨m, hm, hpre, hgen⟩ := hentry e
      refine List.Forall₂.cons ?_ ih
      rw [hm]
      exact ⟨hpre, hgen⟩
  · intro e he
    obtain ⟨m, hm, hpre, _⟩ := hentry e
    have hmem : m ∈ errs.map fun err =>
        if err.Tag = "required".toList then
          "campo '".toList ++ err.Field ++ "' é obrigatório".toList
        else if err.Tag = "url".toList then
          "campo '".toList ++ err.Field ++ "' deve ser uma URL válida".toList
        else if err.Tag = "email".toList then
          "campo '".toList ++ err.Field ++ "' deve ser um email válido".toList
        else
          "campo '".toList ++ err.Field ++ "' falhou na validação '".toList ++ err.Tag
            ++ "'".toList := by
      rw [List.mem_map]
      exact ⟨e, he, hm⟩
    have hfield : e.Field <:+: m := by
      obtain ⟨r, hr⟩ := hpre
      exact ⟨"campo '".toList, "'".toList ++ r, by rw [← hr]; simp⟩
    have hjoin := join_infix_of_mem "\n- ".toList hmem
    have hmsg : Join (errs.map fun err =>
        if err.Tag = "required".toList then
          "campo '".toList ++ err.Field ++ "' é obrigatório".toList
        else if err.Tag = "url".toList then
          "campo '".toList ++ err.Field ++ "' deve ser uma URL válida".toList
        else if err.Tag = "email".toList then
          "campo '".toList ++ err.Field ++ "' deve ser um email válido".toList
        else
          "campo '".toList ++ err.Field ++ "' falhou na validação '".toList ++ err.Tag
            ++ "'".toList) "\n- ".toList <:+: (formatValidationError errs).Error :=
      ⟨"erros de validação:\n- ".toList, [], by simp [formatValidationError, Err.Error]⟩
    exact (hfield.trans hjoin).trans hmsg

/-- C13, at two fields that both fail `url`: one error, whose message holds both field
names. -/
theorem formatValidationError_entries_witness :
    "DATABASE_URL".toList <:+:
        (formatValidationError [{ Field := "DATABASE_URL".toList, Tag := "url".toList },
          { Field := "API_URL".toList, Tag := "url".toList }]).Error ∧
      "API_URL".toList <:+:
        (formatValidationError [{ Field := "DATABASE_URL".toList, Tag := "url".toList },
          { Field := "API_URL".toList, Tag := "url".toList }]).Error :=
  ⟨(formatValidationError_entries [{ Field := "DATABASE_URL".toList, Tag := "url".toList },
      { Field := "API_URL".toList, Tag := "url".toList }]).2
      { Field := "DATABASE_URL".toList, Tag := "url".toList } (by decide),
    (formatValidationError_entries [{ Field := "DATABASE_URL".toList, Tag := "url".toList },
      { Field := "API_URL".toList, Tag := "url".toList }]).2
      { Field := "API_URL".toList, Tag := "url".toList } (by decide)⟩

/-! ### Values that bring a placeholder with them -/

/-- When the substituted text has a match, `interpolateValue` fails and names a variable. -/
theorem interpolateValue_bracket_of_match {template : Str} {envValues : StrMap}
    (h : MatchString (replaceSegs envValues (segments template)) = true) :
    ∃ names, names ≠ [] ∧
      interpolateValue (bracket template) envValues = Except.error (Err.unresolved names) := by
  refine ⟨holeNames (segments (replaceSegs envValues (segments template))), ?_, ?_⟩
  · obtain ⟨n, hn⟩ := matchString_eq_true.mp h
    intro hnil
    have := mem_holeNames.mpr hn
    rw [hnil] at this
    cases this
  · rw [interpolateValue_bracket, replaceAll_eq_replaceSegs, h, findAll_names]
    rfl

/-- A placeholder whose value has a match of its own makes `interpolateValue` fail. -/
theorem interpolateValue_fails_of_value {template id v : Str} {envValues : StrMap}
    (hid : id ∈ placeholders template) (hv : envValues.lookup id = some v)
    (hmatch : MatchString v = true) :
    ∃ names, names ≠ [] ∧
      interpolateValue (bracket template) envValues = Except.error (Err.unresolved names) := by
  apply interpolateValue_bracket_of_match
  obtain ⟨a, b, hab⟩ := List.append_of_mem (mem_placeholders.mp hid)
  obtain ⟨p, n, q, hpq, hne, hclose⟩ := infix_of_matchString hmatch
  have hres : replaceSegs envValues (segments template)
      = (replaceSegs envValues a ++ p) ++ matchText n ++ (q ++ replaceSegs envValues b) := by
    rw [hab, replaceSegs_append, replaceSegs_hole, hv]
    simp only
    rw [hpq]
    simp
  rw [hres]
  exact matchString_of_infix _ _ hne hclose

/-- A bracketed value whose template has a placeholder has a match. -/
theorem matchString_bracket_of_placeholder {template id : Str}
    (hid : id ∈ placeholders template) : MatchString (bracket template) = true := by
  obtain ⟨hne, hclose⟩ := hole_of_mem_segments (mem_placeholders.mp hid)
  obtain ⟨a, b, hab⟩ := List.append_of_mem (mem_placeholders.mp hid)
  have ht := render_segments template
  rw [hab, render_append, render] at ht
  have e : bracket template = ('[' :: render a) ++ matchText id ++ (render b ++ [']']) := by
    rw [bracket, ← ht]
    simp
  rw [e]
  exact matchString_of_infix _ _ hne hclose

/-- After the first loop a key of a settable field with a non-empty variable holds that
field's raw value, when every later field that writes the key writes the same value. -/
theorem lookup_collectEnvValues_field (environ : StrMap) (pre post : List Field) (f : Field)
    (k : Str) (hset : f.CanSet = true) (hne : Getenv environ (getEnvName f.type) ≠ [])
    (hk : k = getEnvName f.type ∨ k = f.type.Name)
    (hlater : ∀ g ∈ post, g.CanSet = true → Getenv environ (getEnvName g.type) ≠ [] →
      k = getEnvName g.type ∨ k = g.type.Name →
      Getenv environ (getEnvName g.type) = Getenv environ (getEnvName f.type)) :
    (collectEnvValues environ (pre ++ f :: post) []).lookup k
      = some (Getenv environ (getEnvName f.type)) := by
  rw [collectEnvValues_append, collectEnvValues]
  exact lookup_collectEnvValues_of_agree environ post k _ _
    (lookup_collectField_of_writes _ ⟨hset, hne, hk⟩)
    fun g hg hw => hlater g hg hw.1 hw.2.1 hw.2.2

theorem bracket_ne_nil (template : Str) : bracket template ≠ [] := by
  simp [bracket]

/-- C11, as stated, fails: let `F` be the field `Y` with `env:"X"` and `G`, declared after
it, the field `X` with `env:"KA"`, with `X=[{X}]` and `KA=hello`.  The template of `F` names
`X`, the environment key of `F`, yet the key `X` holds the value of `G`, and `processStruct`
returns no error: both fields are assigned `hello`. -/
theorem processStruct_self_reference_counterexample :
    getEnvName (stringField "Y".toList "X".toList []).type = "X".toList ∧
      Getenv [("X".toList, "[\x7bX\x7d]".toList), ("KA".toList, "hello".toList)] "X".toList
        = bracket "\x7bX\x7d".toList ∧
      "X".toList ∈ placeholders "\x7bX\x7d".toList ∧
      processStruct
        (Target.structPtr [stringField "Y".toList "X".toList [],
          stringField "X".toList "KA".toList []])
        { EnvFile := [], RequiredByDefault := true }
        [("X".toList, "[\x7bX\x7d]".toList), ("KA".toList, "hello".toList)]
      = (Target.structPtr [
          { stringField "Y".toList "X".toList [] with value := Value.String "hello".toList },
          { stringField "X".toList "KA".toList [] with value := Value.String "hello".toList }],
        none) := by
  decide

/-- C11, amended. Let `f` be a settable field whose raw value is a bracketed template with a
placeholder whose identifier is the environment key or the name of `f`, let every field
declared later that is settable, has a non-empty variable and has that identifier as its
environment key or name have the same raw value (so the key still holds the raw value of `f`;
it does when no later field has that key), and let the second loop run through the fields
declared before `f` without returning.  Then `processStruct` fails on `f` with the
unresolved-interpolation error, `f` and the fields after it being left as they were. -/
theorem processStruct_self_reference (pre post : List Field) (f : Field)
    (options : LoadOptions) (environ : StrMap) (template id : Str)
    (hset : f.CanSet = true)
    (hraw : Getenv environ (getEnvName f.type) = bracket template)
    (hid : id ∈ placeholders template)
    (hself : id = getEnvName f.type ∨ id = f.type.Name)
    (hlater : ∀ g ∈ post, g.CanSet = true → Getenv environ (getEnvName g.type) ≠ [] →
      id = getEnvName g.type ∨ id = g.type.Name →
      Getenv environ (getEnvName g.type) = Getenv environ (getEnvName f.type))
    (hpre : (assignFields environ options
      (collectEnvValues environ (pre ++ f :: post) []) pre).2 = none) :
    ∃ names, names ≠ [] ∧
      processStruct (Target.structPtr (pre ++ f :: post)) options environ
        = (Target.structPtr ((assignFields environ options
              (collectEnvValues environ (pre ++ f :: post) []) pre).1 ++ f :: post),
            some (Err.interpolation (getEnvName f.type) (Err.unresolved names))) := by
  have hne : Getenv environ (getEnvName f.type) ≠ [] := by
    rw [hraw]
    exact bracket_ne_nil template
  have hlook := lookup_collectEnvValues_field environ pre post f id hset hne hself hlater
  rw [hraw] at hlook
  obtain ⟨names, hnames, hfail⟩ :=
    interpolateValue_fails_of_value hid hlook (matchString_bracket_of_placeholder hid)
  refine ⟨names, hnames, ?_⟩
  have hf : assignField environ options (collectEnvValues environ (pre ++ f :: post) []) f
      = Except.error (Err.interpolation (getEnvName f.type) (Err.unresolved names)) := by
    rw [assignField_of_nonempty options _ hset hne, hraw, hfail]
  simp only [processStruct]
  rw [assignFields_append _ hpre, assignFields_cons_error post hf]

/-- C11 amended, at the field `URL` with `URL=[{URL}/x]` declared after the field `NAME`
with `NAME=n`: `NAME` is assigned, and `processStruct` fails on `URL`. -/
theorem processStruct_self_reference_witness :
    ∃ names, names ≠ [] ∧
      processStruct
        (Target.structPtr ([stringField "NAME".toList [] []] ++
          stringField "URL".toList [] [] :: []))
        { EnvFile := [], RequiredByDefault := true }
        [("NAME".toList, "n".toList), ("URL".toList, "[\x7bURL\x7d/x]".toList)]
      = (Target.structPtr ((assignFields
              [("NAME".toList, "n".toList), ("URL".toList, "[\x7bURL\x7d/x]".toList)]
              { EnvFile := [], RequiredByDefault := true }
              (collectEnvValues
                [("NAME".toList, "n".toList), ("URL".toList, "[\x7bURL\x7d/x]".toList)]
                ([stringField "NAME".toList [] []] ++ stringField "URL".toList [] [] :: []) [])
              [stringField "NAME".toList [] []]).1 ++ stringField "URL".toList [] [] :: []),
          some (Err.interpolation (getEnvName (stringField "URL".toList [] []).type)
            (Err.unresolved names))) :=
  processStruct_self_reference [stringField "NAME".toList [] []] []
    (stringField "URL".toList [] []) { EnvFile := [], RequiredByDefault := true }
    [("NAME".toList, "n".toList), ("URL".toList, "[\x7bURL\x7d/x]".toList)]
    "\x7bURL\x7d/x".toList "URL".toList (by decide) (by decide) (by decide) (by decide)
    (by decide) (by decide)

/-- Whatever the map holds after the first loop is what it held before, or the raw value of
a field that wrote the key. -/
theorem lookup_collectEnvValues_raw (environ : StrMap) (fields : List Field) (k v : Str)
    (m : StrMap) (h : (collectEnvValues environ fields m).lookup k = some v) :
    m.lookup k = some v ∨
      ∃ g ∈ fields, writesKey environ g k ∧ v = Getenv environ (getEnvName g.type) := by
  induction fields generalizing m with
  | nil => exact Or.inl h
  | cons f fs ih =>
    rw [collectEnvValues] at h
    rcases ih _ h with h1 | ⟨g, hg, hw, hv⟩
    · by_cases hw : writesKey environ f k
      · rw [lookup_collectField_of_writes m hw] at h1
        simp only [Option.some.injEq] at h1
        exact Or.inr ⟨f, List.mem_cons_self _ _, hw, h1.symm⟩
      · rw [lookup_collectField_of_not_writes m hw] at h1
        exact Or.inl h1
    · exact Or.inr ⟨g, List.mem_cons_of_mem _ hg, hw, hv⟩

/-- C17, as stated, fails: let `A` be the field `A` with `A=[{X}]`, `B` the field `Y` with
`env:"X"` and `X={x}`, and `G`, declared last, the field `X` with `env:"KA"` and `KA=clean`.
The template of `A` names `X`, the environment key of `B`, and the raw value of `B` has a
match; yet the text substituted is `clean`, the value of `G`, and `A` is assigned `clean`. -/
theorem assignField_raw_counterexample :
    getEnvName (stringField "Y".toList "X".toList []).type = "X".toList ∧
      "X".toList ∈ placeholders "\x7bX\x7d".toList ∧
      MatchString (Getenv [("A".toList, "[\x7bX\x7d]".toList), ("X".toList, "\x7bx\x7d".toList),
        ("KA".toList, "clean".toList)] "X".toList) = true ∧
      replaceMatch
        (collectEnvValues [("A".toList, "[\x7bX\x7d]".toList),
            ("X".toList, "\x7bx\x7d".toList), ("KA".toList, "clean".toList)]
          [stringField "A".toList [] [], stringField "Y".toList "X".toList [],
            stringField "X".toList "KA".toList []] [])
        (matchText "X".toList) = "clean".toList ∧
      assignField [("A".toList, "[\x7bX\x7d]".toList), ("X".toList, "\x7bx\x7d".toList),
          ("KA".toList, "clean".toList)]
        { EnvFile := [], RequiredByDefault := true }
        (collectEnvValues [("A".toList, "[\x7bX\x7d]".toList),
            ("X".toList, "\x7bx\x7d".toList), ("KA".toList, "clean".toList)]
          [stringField "A".toList [] [], stringField "Y".toList "X".toList [],
            stringField "X".toList "KA".toList []] [])
        (stringField "A".toList [] [])
      = Except.ok { stringField "A".toList [] [] with value := Value.String "clean".toList } := by
  decide

/-- C17, amended. Let `B` be a settable field with a non-empty raw value, let the template
of the settable field `A` have a placeholder whose identifier is the environment key or the
name of `B`, and let every field declared after `B` that is settable, has a non-empty
variable and has that identifier as its environment key or name have the same raw value (so
the key still holds the raw value of `B`).  Then the text substituted for the placeholder is
the raw value of `B` as the first loop read it, not what `B` is resolved to; and when that raw
value has a match of the expression, the iteration for `A` fails with the
unresolved-interpolation error.  In every case what the map holds for a key is the raw value
of a settable field that has the key as its environment key or name, never a resolved
value. -/
theorem assignField_raw_substitution (pre post : List Field) (A B : Field)
    (options : LoadOptions) (environ : StrMap) (template id : Str)
    (hB : B.CanSet = true) (hBraw : Getenv environ (getEnvName B.type) ≠ [])
    (href : id = getEnvName B.type ∨ id = B.type.Name)
    (hlater : ∀ g ∈ post, g.CanSet = true → Getenv environ (getEnvName g.type) ≠ [] →
      id = getEnvName g.type ∨ id = g.type.Name →
      Getenv environ (getEnvName g.type) = Getenv environ (getEnvName B.type))
    (hA : A.CanSet = true) (hAraw : Getenv environ (getEnvName A.type) = bracket template)
    (hid : id ∈ placeholders template) :
    replaceMatch (collectEnvValues environ (pre ++ B :: post) []) (matchText id)
        = Getenv environ (getEnvName B.type) ∧
      (MatchString (Getenv environ (getEnvName B.type)) = true →
        ∃ names, names ≠ [] ∧
          assignField environ options (collectEnvValues environ (pre ++ B :: post) []) A
            = Except.error (Err.interpolation (getEnvName A.type) (Err.unresolved names))) ∧
      (∀ key v, (collectEnvValues environ (pre ++ B :: post) []).lookup key = some v →
        ∃ g ∈ pre ++ B :: post, g.CanSet = true ∧
          (key = getEnvName g.type ∨ key = g.type.Name) ∧
          v = Getenv environ (getEnvName g.type)) := by
  have hlook := lookup_collectEnvValues_field environ pre post B id hB hBraw href hlater
  refine ⟨?_, ?_, ?_⟩
  · rw [replaceMatch_matchText, hlook]
  · intro hmatch
    obtain ⟨names, hnames, hfail⟩ := interpolateValue_fails_of_value hid hlook hmatch
    refine ⟨names, hnames, ?_⟩
    have hne : Getenv environ (getEnvName A.type) ≠ [] := by
      rw [hAraw]
      exact bracket_ne_nil template
    rw [assignField_of_nonempty options _ hA hne, hAraw, hfail]
  · intro key v hkv
    rcases lookup_collectEnvValues_raw environ _ key v [] hkv with h0 | ⟨g, hg, hw, hv⟩
    · simp at h0
    · exact ⟨g, hg, hw.1, hw.2.2, hv⟩

/-- C17 amended, at the fields `A` and `B` with `A=[{B}]` and `B=[{C}]`, and `C=c`: the
text substituted into `A` is `[{C}]`, brackets and braces included, although `B` itself
resolves to `c`; so the iteration for `A` fails, naming `C`, which is defined. -/
theorem assignField_raw_substitution_witness :
    interpolateValue "[\x7bC\x7d]".toList
        (collectEnvValues [("A".toList, "[\x7bB\x7d]".toList),
            ("B".toList, "[\x7bC\x7d]".toList), ("C".toList, "c".toList)]
          ([stringField "A".toList [] []] ++ stringField "B".toList [] [] ::
            [stringField "C".toList [] []]) [])
      = Except.ok "c".toList ∧
    replaceMatch
        (collectEnvValues [("A".toList, "[\x7bB\x7d]".toList),
            ("B".toList, "[\x7bC\x7d]".toList), ("C".toList, "c".toList)]
          ([stringField "A".toList [] []] ++ stringField "B".toList [] [] ::
            [stringField "C".toList [] []]) [])
        (matchText "B".toList) = "[\x7bC\x7d]".toList ∧
    assignField [("A".toList, "[\x7bB\x7d]".toList), ("B".toList, "[\x7bC\x7d]".toList),
          ("C".toList, "c".toList)]
        { EnvFile := [], RequiredByDefault := true }
        (collectEnvValues [("A".toList, "[\x7bB\x7d]".toList),
            ("B".toList, "[\x7bC\x7d]".toList), ("C".toList, "c".toList)]
          ([stringField "A".toList [] []] ++ stringField "B".toList [] [] ::
            [stringField "C".toList [] []]) [])
        (stringField "A".toList [] [])
      = Except.error (Err.interpolation "A".toList (Err.unresolved ["C".toList])) ∧
    ∃ names, names ≠ [] ∧
      assignField [("A".toList, "[\x7bB\x7d]".toList), ("B".toList, "[\x7bC\x7d]".toList),
          ("C".toList, "c".toList)]
        { EnvFile := [], RequiredByDefault := true }
        (collectEnvValues [("A".toList, "[\x7bB\x7d]".toList),
            ("B".toList, "[\x7bC\x7d]".toList), ("C".toList, "c".toList)]
          ([stringField "A".toList [] []] ++ stringField "B".toList [] [] ::
            [stringField "C".toList [] []]) [])
        (stringField "A".toList [] [])
      = Except.error (Err.interpolation (getEnvName (stringField "A".toList [] []).type)
          (Err.unresolved names)) :=
  ⟨by decide,
    (assignField_raw_substitution [stringField "A".toList [] []]
      [stringField "C".toList [] []] (stringField "A".toList [] [])
      (stringField "B".toList [] []) { EnvFile := [], RequiredByDefault := true }
      [("A".toList, "[\x7bB\x7d]".toList), ("B".toList, "[\x7bC\x7d]".toList),
        ("C".toList, "c".toList)]
      "\x7bB\x7d".toList "B".toList (by decide) (by decide) (by decide) (by decide)
      (by decide) (by decide) (by decide)).1,
    by decide,
    (assignField_raw_substitution [stringField "A".toList [] []]
      [stringField "C".toList [] []] (stringField "A".toList [] [])
      (stringField "B".toList [] []) { EnvFile := [], RequiredByDefault := true }
      [("A".toList, "[\x7bB\x7d]".toList), ("B".toList, "[\x7bC\x7d]".toList),
        ("C".toList, "c".toList)]
      "\x7bB\x7d".toList "B".toList (by decide) (by decide) (by decide) (by decide)
      (by decide) (by decide) (by decide)).2.1 (by decide)⟩

/-- When `processStruct` returns an error, it is the error of the first field, in
declaration order, whose iteration fails: a settable field that is required and has an empty
variable (missing-variable error), or has a non-empty variable whose interpolation fails
(unresolved-interpolation error), or has a non-empty variable and a kind other than string
(unsupported-kind error).  That field and every field declared after it are as they were
before the call; the fields declared before it are as their iterations left them, those that
are settable and have a non-empty variable holding their interpolated value: nothing is
rolled back. -/
theorem processStruct_error_first (fields : List Field) (options : LoadOptions)
    (environ : StrMap) (t : Target) (err : Err)
    (h : processStruct (Target.structPtr fields) options environ = (t, some err)) :
    ∃ pre f post, fields = pre ++ f :: post ∧
      (∀ g ∈ pre, ∃ g2,
        assignField environ options (collectEnvValues environ fields []) g = Except.ok g2) ∧
      assignField environ options (collectEnvValues environ fields []) f = Except.error err ∧
      f.CanSet = true ∧
      ((Getenv environ (getEnvName f.type) = [] ∧
          isFieldRequired f.type options.RequiredByDefault = true ∧
          err = Err.missingRequired (getEnvName f.type)) ∨
        (Getenv environ (getEnvName f.type) ≠ [] ∧ ∃ names,
          interpolateValue (Getenv environ (getEnvName f.type))
            (collectEnvValues environ fields []) = Except.error (Err.unresolved names) ∧
          err = Err.interpolation (getEnvName f.type) (Err.unresolved names)) ∨
        (Getenv environ (getEnvName f.type) ≠ [] ∧ f.type.Kind ≠ Kind.String ∧
          ∃ resolved cause,
            interpolateValue (Getenv environ (getEnvName f.type))
              (collectEnvValues environ fields []) = Except.ok resolved ∧
            setFieldValue f resolved = Except.error cause ∧
            err = Err.setField f.type.Name cause)) ∧
      t = Target.structPtr
        (pre.map (assignedField environ options (collectEnvValues environ fields []))
          ++ f :: post) ∧
      (∀ g ∈ pre, g.CanSet = true → Getenv environ (getEnvName g.type) ≠ [] →
        ∃ resolved,
          interpolateValue (Getenv environ (getEnvName g.type))
            (collectEnvValues environ fields []) = Except.ok resolved ∧
          assignedField environ options (collectEnvValues environ fields []) g
            = { g with value := Value.String resolved }) := by
  simp only [processStruct, Prod.mk.injEq] at h
  obtain ⟨ht, herr⟩ := h
  obtain ⟨pre, f, post, hsplit, hpre, hf, hres⟩ := assignFields_error_split herr
  obtain ⟨hset, hcases⟩ := assignField_error_cases hf
  refine ⟨pre, f, post, hsplit, hpre, hf, hset, hcases, ?_, ?_⟩
  · rw [← ht, hres]
  · intro g hg hgset hgne
    obtain ⟨g2, hg2⟩ := hpre g hg
    obtain ⟨resolved, hr, hval⟩ := assignField_ok_of_nonempty hgset hgne hg2
    refine ⟨resolved, hr, ?_⟩
    simp only [assignedField, hg2, hval]

/-- An iteration for a field that is not missing-required, has no unresolved interpolation
and, when its variable is not empty, is of kind string, returns no error. -/
theorem assignField_of_passes {environ : StrMap} {options : LoadOptions} {envValues : StrMap}
    {g : Field}
    (h : g.CanSet = true →
      (Getenv environ (getEnvName g.type) = [] →
        isFieldRequired g.type options.RequiredByDefault = false) ∧
      (Getenv environ (getEnvName g.type) ≠ [] →
        g.type.Kind = Kind.String ∧
        ∃ resolved, interpolateValue (Getenv environ (getEnvName g.type)) envValues
          = Except.ok resolved)) :
    ∃ g2, assignField environ options envValues g = Except.ok g2 := by
  by_cases hset : g.CanSet = true
  · obtain ⟨hempty, hfull⟩ := h hset
    by_cases hne : Getenv environ (getEnvName g.type) = []
    · exact ⟨g, assignField_skip envValues (hempty hne) hne⟩
    · obtain ⟨hk, resolved, hr⟩ := hfull hne
      rw [assignField_of_nonempty options envValues hset hne, hr]
      simp only [setFieldValue_of_string resolved hk]
      exact ⟨_, rfl⟩
  · have hns : g.CanSet = false := by simpa using hset
    exact ⟨g, by simp [assignField, hns]⟩

/-- An iteration leaves a field that is not settable, or whose variable is empty, as it
was. -/
theorem assignedField_of_untouched {environ : StrMap} (options : LoadOptions)
    (envValues : StrMap) {g : Field}
    (h : g.CanSet = false ∨ Getenv environ (getEnvName g.type) = []) :
    assignedField environ options envValues g = g := by
  unfold assignedField
  cases hg : assignField environ options envValues g with
  | error e => rfl
  | ok g2 =>
    simp only
    rcases h with h | h
    · simp [assignField, h] at hg
      exact hg.symm
    · by_cases hset : g.CanSet = true
      · by_cases hreq : isFieldRequired g.type options.RequiredByDefault = true
        · rw [assignField_missing envValues hset hreq h] at hg
          cases hg
        · rw [assignField_skip envValues (by simpa using hreq) h] at hg
          simp only [Except.ok.injEq] at hg
          exact hg.symm
      · have hns : g.CanSet = false := by simpa using hset
        simp [assignField, hns] at hg
        exact hg.symm

/-- C19. `processStruct` stops at the first failing field in declaration order.  Let no
settable field declared before `f` fail (none is required with an empty variable, and each
with a non-empty variable is of kind string and has an interpolation that resolves), and let
`f` be settable.  If `f` is required and its variable is empty, `processStruct` returns the
missing-variable error of `f`; if its variable is not empty and its interpolation fails,
the unresolved-interpolation error of `f`; if its variable is not empty, its interpolation
resolves and its kind is not string, the unsupported-kind error of `f`.  In each case `f` and
every field declared after it are as they were before the call, and the fields declared
before `f` are as their iterations left them: a settable one with a non-empty variable holds
its interpolated value and the others are unchanged.  Nothing is rolled back. -/
theorem processStruct_fail_fast (pre post : List Field) (f : Field) (options : LoadOptions)
    (environ : StrMap)
    (hpre : ∀ g ∈ pre, g.CanSet = true →
      (Getenv environ (getEnvName g.type) = [] →
        isFieldRequired g.type options.RequiredByDefault = false) ∧
      (Getenv environ (getEnvName g.type) ≠ [] →
        g.type.Kind = Kind.String ∧
        ∃ resolved, interpolateValue (Getenv environ (getEnvName g.type))
          (collectEnvValues environ (pre ++ f :: post) []) = Except.ok resolved))
    (hset : f.CanSet = true) :
    (Getenv environ (getEnvName f.type) = [] →
        isFieldRequired f.type options.RequiredByDefault = true →
        processStruct (Target.structPtr (pre ++ f :: post)) options environ
          = (Target.structPtr (pre.map (assignedField environ options
                (collectEnvValues environ (pre ++ f :: post) [])) ++ f :: post),
              some (Err.missingRequired (getEnvName f.type)))) ∧
      (∀ names, Getenv environ (getEnvName f.type) ≠ [] →
        interpolateValue (Getenv environ (getEnvName f.type))
          (collectEnvValues environ (pre ++ f :: post) [])
          = Except.error (Err.unresolved names) →
        processStruct (Target.structPtr (pre ++ f :: post)) options environ
          = (Target.structPtr (pre.map (assignedField environ options
                (collectEnvValues environ (pre ++ f :: post) [])) ++ f :: post),
              some (Err.interpolation (getEnvName f.type) (Err.unresolved names)))) ∧
      (∀ resolved, Getenv environ (getEnvName f.type) ≠ [] →
        interpolateValue (Getenv environ (getEnvName f.type))
          (collectEnvValues environ (pre ++ f :: post) []) = Except.ok resolved →
        f.type.Kind ≠ Kind.String →
        ∃ cause, setFieldValue f resolved = Except.error cause ∧
          processStruct (Target.structPtr (pre ++ f :: post)) options environ
            = (Target.structPtr (pre.map (assignedField environ options
                  (collectEnvValues environ (pre ++ f :: post) [])) ++ f :: post),
                some (Err.setField f.type.Name cause))) ∧
      (∀ g ∈ pre,
        (g.CanSet = true → Getenv environ (getEnvName g.type) ≠ [] →
          ∃ resolved,
            interpolateValue (Getenv environ (getEnvName g.type))
              (collectEnvValues environ (pre ++ f :: post) []) = Except.ok resolved ∧
            assignedField environ options (collectEnvValues environ (pre ++ f :: post) []) g
              = { g with value := Value.String resolved }) ∧
        (g.CanSet = false ∨ Getenv environ (getEnvName g.type) = [] →
          assignedField environ options (collectEnvValues environ (pre ++ f :: post) []) g
            = g)) := by
  have hall : ∀ g ∈ pre, ∃ g2, assignField environ options
      (collectEnvValues environ (pre ++ f :: post) []) g = Except.ok g2 :=
    fun g hg => assignField_of_passes (hpre g hg)
  have hmap := assignFields_eq_map hall
  have hnone : (assignFields environ options
      (collectEnvValues environ (pre ++ f :: post) []) pre).2 = none := by rw [hmap]
  have hstop : ∀ err, assignField environ options
      (collectEnvValues environ (pre ++ f :: post) []) f = Except.error err →
      processStruct (Target.structPtr (pre ++ f :: post)) options environ
        = (Target.structPtr (pre.map (assignedField environ options
              (collectEnvValues environ (pre ++ f :: post) [])) ++ f :: post), some err) := by
    intro err herr
    simp only [processStruct]
    rw [assignFields_append _ hnone, assignFields_cons_error post herr, hmap]
  refine ⟨?_, ?_, ?_, ?_⟩
  · intro hempty hreq
    exact hstop _ (assignField_missing _ hset hreq hempty)
  · intro names hne hfail
    apply hstop
    rw [assignField_of_nonempty options _ hset hne, hfail]
  · intro resolved hne hok hkind
    obtain ⟨cause, hc, _⟩ := setFieldValue_of_not_string resolved hkind
    refine ⟨cause, hc, hstop _ ?_⟩
    rw [assignField_of_nonempty options _ hset hne, hok]
    simp only [hc]
  · intro g hg
    constructor
    · intro hgset hgne
      obtain ⟨g2, hg2⟩ := hall g hg
      obtain ⟨resolved, hr, hval⟩ := assignField_ok_of_nonempty hgset hgne hg2
      refine ⟨resolved, hr, ?_⟩
      simp only [assignedField, hg2, hval]
    · exact assignedField_of_untouched options _

/-- C19, at three fields of which the first and third have their variables set and the
second fails, in the three ways: `B` required and unset; `B=[{MISSING}]`; and `PORT` of kind
int with `PORT=8080`.  Each time the error is that of the second field, the first field has
been assigned, and the second and third are as they were. -/
theorem processStruct_fail_fast_witness :
    processStruct (Target.structPtr ([stringField "A".toList [] []] ++
          stringField "B".toList [] [] :: [stringField "C".toList [] []]))
        defaultOptions environAC
      = (Target.structPtr [
          { stringField "A".toList [] [] with value := Value.String "a".toList },
          stringField "B".toList [] [], stringField "C".toList [] []],
        some (Err.missingRequired "B".toList)) ∧
    processStruct (Target.structPtr ([stringField "A".toList [] []] ++
          stringField "B".toList [] [] :: [stringField "C".toList [] []]))
        defaultOptions
        [("A".toList, "a".toList), ("B".toList, "[\x7bMISSING\x7d]".toList),
          ("C".toList, "c".toList)]
      = (Target.structPtr [
          { stringField "A".toList [] [] with value := Value.String "a".toList },
          stringField "B".toList [] [], stringField "C".toList [] []],
        some (Err.interpolation "B".toList (Err.unresolved ["MISSING".toList]))) ∧
    ∃ cause, setFieldValue (intField "PORT".toList) "8080".toList = Except.error cause ∧
      processStruct (Target.structPtr ([stringField "A".toList [] []] ++
          intField "PORT".toList :: [stringField "C".toList [] []]))
        defaultOptions
        [("A".toList, "a".toList), ("PORT".toList, "8080".toList), ("C".toList, "c".toList)]
      = (Target.structPtr [
          { stringField "A".toList [] [] with value := Value.String "a".toList },
          intField "PORT".toList, stringField "C".toList [] []],
        some (Err.setField "PORT".toList cause)) :=
  ⟨(processStruct_fail_fast [stringField "A".toList [] []] [stringField "C".toList [] []]
      (stringField "B".toList [] []) defaultOptions environAC
      (fun g hg _ => by
        rw [List.mem_singleton] at hg
        subst hg
        exact ⟨by decide, fun _ => ⟨rfl, "a".toList, by decide⟩⟩)
      (by decide)).1 (by decide) (by decide),
    (processStruct_fail_fast [stringField "A".toList [] []] [stringField "C".toList [] []]
      (stringField "B".toList [] []) defaultOptions
      [("A".toList, "a".toList), ("B".toList, "[\x7bMISSING\x7d]".toList),
        ("C".toList, "c".toList)]
      (fun g hg _ => by
        rw [List.mem_singleton] at hg
        subst hg
        exact ⟨by decide, fun _ => ⟨rfl, "a".toList, by decide⟩⟩)
      (by decide)).2.1 ["MISSING".toList] (by decide) (by decide),
    (processStruct_fail_fast [stringField "A".toList [] []] [stringField "C".toList [] []]
      (intField "PORT".toList) defaultOptions
      [("A".toList, "a".toList), ("PORT".toList, "8080".toList), ("C".toList, "c".toList)]
      (fun g hg _ => by
        rw [List.mem_singleton] at hg
        subst hg
        exact ⟨by decide, fun _ => ⟨rfl, "a".toList, by decide⟩⟩)
      (by decide)).2.2.1 "8080".toList (by decide) (by decide) (by decide)⟩

/-! ### The merge of the env file -/

theorem godotenvLoad_eq (w : World) (filename : Str) :
    godotenvLoad w filename
      = match w.dotenv filename with
        | Except.error msg => Except.error msg
        | Except.ok envMap => Except.ok (envMap.foldl (mergeStep w.environ) w.environ) := rfl

theorem lookup_mergeStep_of_ne (base acc : StrMap) (kv : Str × Str) (k : Str)
    (h : k ≠ kv.1) : (mergeStep base acc kv).lookup k = acc.lookup k := by
  obtain ⟨k0, v0⟩ := kv
  unfold mergeStep
  split
  · rfl
  · have hb : (k == k0) = false := by simpa using h
    simp [Setenv, List.lookup_cons, hb]

theorem lookup_mergeStep_self (base acc : StrMap) (kv : Str × Str)
    (h : base.lookup kv.1 = none) : (mergeStep base acc kv).lookup kv.1 = some kv.2 := by
  obtain ⟨k0, v0⟩ := kv
  simp only at h
  simp [mergeStep, h, Setenv, List.lookup_cons]

theorem mergeStep_isSome_mono (base acc : StrMap) (kv : Str × Str) (k : Str)
    (h : (acc.lookup k).isSome = true) : ((mergeStep base acc kv).lookup k).isSome = true := by
  by_cases hk : k = kv.1
  · unfold mergeStep
    split
    · exact h
    · obtain ⟨k0, v0⟩ := kv
      simp only at hk
      subst hk
      simp [Setenv, List.lookup_cons]
  · rw [lookup_mergeStep_of_ne base acc kv k hk]
    exact h

/-- The merge leaves what the environment had for a variable that was set before it. -/
theorem merge_lookup_of_present (base : StrMap) (envMap : StrMap) (acc : StrMap) (k : Str)
    (h : (base.lookup k).isSome = true) :
    (envMap.foldl (mergeStep base) acc).lookup k = acc.lookup k := by
  induction envMap generalizing acc with
  | nil => rfl
  | cons kv rest ih =>
    rw [List.foldl_cons, ih]
    by_cases hk : k = kv.1
    · have hp : (base.lookup kv.1).isSome = true := hk ▸ h
      simp [mergeStep, hp]
    · exact lookup_mergeStep_of_ne base acc kv k hk

/-- The merge leaves what the environment had for a key the file does not have. -/
theorem merge_lookup_of_not_key (base : StrMap) (envMap : StrMap) (acc : StrMap) (k : Str)
    (h : k ∉ envMap.map Prod.fst) :
    (envMap.foldl (mergeStep base) acc).lookup k = acc.lookup k := by
  induction envMap generalizing acc with
  | nil => rfl
  | cons kv rest ih =>
    simp only [List.map_cons, List.mem_cons, not_or] at h
    rw [List.foldl_cons, ih _ h.2]
    exact lookup_mergeStep_of_ne base acc kv k h.1

/-- The merge gives a variable that was not set the value the file has for it. -/
theorem merge_lookup_of_absent (base : StrMap) (envMap : StrMap) (acc : StrMap) (k v : Str)
    (hnodup : (envMap.map Prod.fst).Nodup) (hmem : (k, v) ∈ envMap)
    (h : base.lookup k = none) :
    (envMap.foldl (mergeStep base) acc).lookup k = some v := by
  induction envMap generalizing acc with
  | nil => cases hmem
  | cons kv rest ih =>
    simp only [List.map_cons, List.nodup_cons] at hnodup
    rw [List.foldl_cons]
    rcases List.mem_cons.mp hmem with hkv | hrest
    · subst hkv
      rw [merge_lookup_of_not_key base rest _ k hnodup.1]
      exact lookup_mergeStep_self base acc (k, v) h
    · exact ih _ hnodup.2 hrest

theorem merge_isSome_mono (base : StrMap) (envMap : StrMap) (acc : StrMap) (k : Str)
    (h : (acc.lookup k).isSome = true) :
    ((envMap.foldl (mergeStep base) acc).lookup k).isSome = true := by
  induction envMap generalizing acc with
  | nil => exact h
  | cons kv rest ih =>
    rw [List.foldl_cons]
    exact ih _ (mergeStep_isSome_mono base acc kv k h)

/-- After the merge every key of the file is a variable of the environment. -/
theorem merge_keys_present (base : StrMap) (envMap : StrMap) (acc : StrMap)
    (hacc : ∀ k, (base.lookup k).isSome = true → (acc.lookup k).isSome = true) :
    ∀ kv ∈ envMap, ((envMap.foldl (mergeStep base) acc).lookup kv.1).isSome = true := by
  induction envMap generalizing acc with
  | nil => intro kv h; cases h
  | cons kv0 rest ih =>
    intro kv hkv
    rw [List.foldl_cons]
    rcases List.mem_cons.mp hkv with h | h
    · subst h
      apply merge_isSome_mono
      cases hb : base.lookup kv.1 with
      | none => rw [lookup_mergeStep_self base acc kv hb]; rfl
      | some x =>
        have hp : (base.lookup kv.1).isSome = true := by rw [hb]; rfl
        simp only [mergeStep, hp, if_true]
        exact hacc _ hp
    · exact ih _ (fun k hk => mergeStep_isSome_mono base acc kv0 k (hacc k hk)) kv h

/-- A merge of a file all of whose keys are already variables changes nothing. -/
theorem merge_of_all_present (base : StrMap) (envMap : StrMap) (acc : StrMap)
    (h : ∀ kv ∈ envMap, (base.lookup kv.1).isSome = true) :
    envMap.foldl (mergeStep base) acc = acc := by
  induction envMap generalizing acc with
  | nil => rfl
  | cons kv rest ih =>
    rw [List.foldl_cons, ih _ fun x hx => h x (List.mem_cons_of_mem _ hx)]
    simp [mergeStep, h kv (List.mem_cons_self _ _)]

/-- The environment a call of `Load` leaves: the merged one, or the one it found when the
file could not be read. -/
theorem Load_environ (validateStruct : List Field → List FieldError) (target : Target)
    (opts : List LoadOptions) (w : World) :
    (Load validateStruct target opts w).environ
      = match loadEnvFile (resolveOptions opts) w with
        | Except.ok environ => environ
        | Except.error _ => w.environ := by
  cases hl : loadEnvFile (resolveOptions opts) w with
  | error msg => simp only [Load, hl]
  | ok environ =>
    cases hp : processStruct target (resolveOptions opts) environ with
    | mk t e =>
      cases e with
      | some err => simp only [Load, hl, hp]
      | none =>
        cases t with
        | other => simp only [Load, hl, hp]
        | structPtr fields =>
          cases hv : validateStruct fields with
          | nil => simp only [Load, hl, hp, hv]
          | cons a b => simp only [Load, hl, hp, hv]

/-- Merging the file again into the environment the merge left changes nothing. -/
theorem loadEnvFile_again {options : LoadOptions} {w : World} {environ : StrMap}
    (h : loadEnvFile options w = Except.ok environ) :
    loadEnvFile options { w with environ := environ } = Except.ok environ := by
  unfold loadEnvFile at h ⊢
  by_cases hfile : options.EnvFile ≠ []
  · rw [if_pos hfile] at h ⊢
    by_cases hstat : w.stat options.EnvFile = true
    · simp only [hstat, if_true] at h ⊢
      rw [godotenvLoad_eq] at h ⊢
      cases hd : w.dotenv options.EnvFile with
      | error msg =>
        rw [hd] at h
        cases h
      | ok envMap =>
        rw [hd] at h
        simp only [Except.ok.injEq] at h ⊢
        apply merge_of_all_present
        rw [← h]
        exact merge_keys_present w.environ envMap w.environ fun _ hk => hk
    · simp only [hstat, Bool.false_eq_true, if_false, Except.ok.injEq] at h ⊢
  · rw [if_neg hfile] at h ⊢

/-- What the first step of `Load` gives when the file is found and read. -/
theorem loadEnvFile_of_file {options : LoadOptions} {w : World} {envMap : StrMap}
    (hfile : options.EnvFile ≠ []) (hstat : w.stat options.EnvFile = true)
    (hread : w.dotenv options.EnvFile = Except.ok envMap) :
    loadEnvFile options w = Except.ok (envMap.foldl (mergeStep w.environ) w.environ) := by
  unfold loadEnvFile
  rw [if_pos hfile, if_pos hstat, godotenvLoad_eq, hread]

/-- What the first step of `Load` gives when there is no path or no file. -/
theorem loadEnvFile_of_no_file {options : LoadOptions} {w : World}
    (h : options.EnvFile = [] ∨ w.stat options.EnvFile = false) :
    loadEnvFile options w = Except.ok w.environ := by
  unfold loadEnvFile
  rcases h with h | h
  · simp [h]
  · simp [h]

/-- The first step of `Load` never changes a variable that was set. -/
theorem loadEnvFile_keeps {options : LoadOptions} {w : World} {environ : StrMap}
    (h : loadEnvFile options w = Except.ok environ) (k : Str)
    (hk : (w.environ.lookup k).isSome = true) : environ.lookup k = w.environ.lookup k := by
  unfold loadEnvFile at h
  by_cases hfile : options.EnvFile ≠ []
  · rw [if_pos hfile] at h
    by_cases hstat : w.stat options.EnvFile = true
    · rw [if_pos hstat, godotenvLoad_eq] at h
      cases hd : w.dotenv options.EnvFile with
      | error msg =>
        rw [hd] at h
        cases h
      | ok envMap =>
        rw [hd] at h
        simp only [Except.ok.injEq] at h
        rw [← h]
        exact merge_lookup_of_present w.environ envMap w.environ k hk
    · rw [if_neg hstat] at h
      simp only [Except.ok.injEq] at h
      rw [← h]
  · rw [if_neg hfile] at h
    simp only [Except.ok.injEq] at h
    rw [← h]

/-- C14. The merge of the env file never overwrites.  After a call of `Load`, every variable
that was set in the process environment before the call has the value it had, also when the
file gives the key another value; when the file is found and read, a key of the file that was
not a variable has the value the file gives it; and with an empty path, or a path at which no
file is found, the environment is as it was. -/
theorem Load_merge_keeps (validateStruct : List Field → List FieldError) (target : Target)
    (opts : List LoadOptions) (w : World) :
    (∀ k, (w.environ.lookup k).isSome = true →
        (Load validateStruct target opts w).environ.lookup k = w.environ.lookup k) ∧
      (∀ envMap, (resolveOptions opts).EnvFile ≠ [] →
        w.stat (resolveOptions opts).EnvFile = true →
        w.dotenv (resolveOptions opts).EnvFile = Except.ok envMap →
        (envMap.map Prod.fst).Nodup →
        ∀ k v, (k, v) ∈ envMap → w.environ.lookup k = none →
          (Load validateStruct target opts w).environ.lookup k = some v) ∧
      ((resolveOptions opts).EnvFile = [] ∨ w.stat (resolveOptions opts).EnvFile = false →
        (Load validateStruct target opts w).environ = w.environ) := by
  refine ⟨?_, ?_, ?_⟩
  · intro k hk
    rw [Load_environ]
    cases hl : loadEnvFile (resolveOptions opts) w with
    | error msg => rfl
    | ok environ => exact loadEnvFile_keeps hl k hk
  · intro envMap hfile hstat hread hnodup k v hmem habsent
    rw [Load_environ, loadEnvFile_of_file hfile hstat hread]
    exact merge_lookup_of_absent w.environ envMap w.environ k v hnodup hmem habsent
  · intro h
    rw [Load_environ, loadEnvFile_of_no_file h]

/-- C14, at the environment `A=1` and the file `.env` holding `A=2` and `B=3`: after `Load`
with the default options `A` is still `1` and `B` is `3`. -/
theorem Load_merge_keeps_witness :
    (Load acceptAll (Target.structPtr []) [] worldWithFile).environ.lookup "A".toList
        = some "1".toList ∧
      (Load acceptAll (Target.structPtr []) [] worldWithFile).environ.lookup "B".toList
        = some "3".toList :=
  ⟨(Load_merge_keeps acceptAll (Target.structPtr []) [] worldWithFile).1 "A".toList
      (by decide),
    (Load_merge_keeps acceptAll (Target.structPtr []) [] worldWithFile).2.1
      [("A".toList, "2".toList), ("B".toList, "3".toList)] (by decide) (by decide) (by decide)
      (by decide) "B".toList "3".toList (by decide) (by decide)⟩

/-- C15. `Load` is repeatable: a second call on a fresh instance of the same target, with
the same options and the same file, in the environment the first call left, has the outcome
of the first call: the same environment, the same target and the same error or success. -/
theorem Load_repeatable (validateStruct : List Field → List FieldError) (target : Target)
    (opts : List LoadOptions) (w : World) :
    Load validateStruct target opts
        { w with environ := (Load validateStruct target opts w).environ }
      = Load validateStruct target opts w := by
  rw [Load_environ]
  cases hl : loadEnvFile (resolveOptions opts) w with
  | error msg => rfl
  | ok environ =>
    simp only
    have h2 := loadEnvFile_again hl
    simp only [Load, hl, h2]

/-- C15, at the struct `Env` with the environment `A=1` and the file `.env` holding `A=2` and
`B=3`: both calls fail with the same error, in the same merged environment. -/
theorem Load_repeatable_witness :
    Load acceptAll Env []
        { worldWithFile with environ := (Load acceptAll Env [] worldWithFile).environ }
      = Load acceptAll Env [] worldWithFile ∧
      (Load acceptAll Env [] worldWithFile).err
        = some (Err.missingRequired "DB_TOKEN".toList) ∧
      (Load acceptAll Env [] worldWithFile).environ
        = [("B".toList, "3".toList), ("A".toList, "1".toList)] :=
  ⟨Load_repeatable acceptAll Env [] worldWithFile, by decide, by decide⟩

end Envloader
